import Mathlib

/-!
# naver-place-rank: verification of the result-extraction and ranking engine

A shallow embedding of `search.go` and of the response assembly of `main.go`.
Go strings are taken to be valid UTF-8 text and are modelled as lists of
Unicode code points (on such text the byte-wise `strings.Contains` agrees with
containment of code point sequences), the parsed HTML document as a tree of
nodes, and the collaborators that live outside the repository (HTTP transport,
the HTML parser, the Unicode lower-casing table, `url.Parse` and
`URL.ResolveReference`) are explicit arguments of the functions that call them.
The lower-casing table of Go itself is `unicodeToLower`. Strings that pass
through percent-encoding are kept as their bytes.
-/

set_option autoImplicit false

namespace NaverPlaceRank

/-- Go `string`, modelled as the sequence of its Unicode code points. -/
abbrev Str := List Char

/-! ## Package `unicode` / `strings` -/

/-- Go `unicode.IsSpace`: the Latin-1 spaces `\t \n \v \f \r`, space, U+0085,
U+00A0, and the code points of the `White_Space` property above Latin-1. -/
def isSpace (c : Char) : Bool :=
  c.toNat == 0x09 || c.toNat == 0x0A || c.toNat == 0x0B || c.toNat == 0x0C ||
  c.toNat == 0x0D || c.toNat == 0x20 || c.toNat == 0x85 || c.toNat == 0xA0 ||
  c.toNat == 0x1680 || (0x2000 ≤ c.toNat && c.toNat ≤ 0x200A) ||
  c.toNat == 0x2028 || c.toNat == 0x2029 || c.toNat == 0x202F ||
  c.toNat == 0x205F || c.toNat == 0x3000

/-- Go `strings.TrimSpace`: drops the leading and the trailing white space. -/
def TrimSpace (s : Str) : Str :=
  (s.dropWhile isSpace).rdropWhile isSpace

/-- Go `strings.ToLower`: maps every code point through the lower-casing table
`lower` (Go's `unicode.ToLower`, which is not part of the repository). -/
def ToLower (lower : Char → Char) (s : Str) : Str :=
  s.map lower

/-- Puts the non-space code point `c` in front of the fields `fs` of the
text `cs` that follows it: `c` opens a field of its own when `cs` is empty or
begins with white space, and otherwise extends the first field of `cs`. -/
def consField (c : Char) (cs : Str) (fs : List Str) : List Str :=
  match cs with
  | [] => [[c]]
  | d :: _ =>
    if isSpace d then [c] :: fs
    else
      match fs with
      | f :: rest => (c :: f) :: rest
      | [] => [[c]]

/-- Go `strings.Fields`: the maximal runs of non-space code points, in order. -/
def Fields : Str → List Str
  | [] => []
  | c :: cs => if isSpace c then Fields cs else consField c cs (Fields cs)

/-- Go `strings.Join`. -/
def Join : List Str → Str → Str
  | [], _ => []
  | [a], _ => a
  | a :: b :: rest, sep => a ++ sep ++ Join (b :: rest) sep

/-- Tells whether `s` begins with `p` (Go `strings.HasPrefix`). -/
def startsWith : Str → Str → Bool
  | _, [] => true
  | [], _ :: _ => false
  | c :: cs, p :: ps => c == p && startsWith cs ps

/-- Go `strings.Contains`: `substr` occurs in `s` at some position. -/
def Contains : Str → Str → Bool
  | [], substr => startsWith [] substr
  | c :: cs, substr => startsWith (c :: cs) substr || Contains cs substr

/-- An ASCII lower-casing table, used to evaluate the model on examples. -/
def asciiLower (c : Char) : Char :=
  if 65 ≤ c.toNat ∧ c.toNat ≤ 90 then Char.ofNat (c.toNat + 32) else c

/-! ## Package `unicode`: the case tables

The tables of Unicode 15.0, which Go's package `unicode` carries: the general
category `Lu` behind `unicode.IsUpper`, and the simple lower-case mapping
behind `unicode.ToLower`. A range `(lo, hi, stride)` stands for the code points
`lo, lo + stride, ..., hi`. -/

/-- Tells whether `n` is one of the code points of the range `r`. -/
def inRange (n : Nat) (r : Nat × Nat × Nat) : Bool :=
  decide (r.1 ≤ n ∧ n ≤ r.2.1 ∧ (n - r.1) % r.2.2 = 0)

/-- Go `unicode.Upper`: the code points of category `Lu`. -/
def upperTable : List (Nat × Nat × Nat) :=
  [(0x41, 0x5A, 1), (0xC0, 0xD6, 1), (0xD8, 0xDE, 1), (0x100, 0x136, 2), (0x139, 0x147, 2),
   (0x14A, 0x178, 2), (0x179, 0x17D, 2), (0x181, 0x182, 1), (0x184, 0x184, 1), (0x186, 0x187, 1),
   (0x189, 0x18B, 1), (0x18E, 0x191, 1), (0x193, 0x194, 1), (0x196, 0x198, 1), (0x19C, 0x19D, 1),
   (0x19F, 0x1A0, 1), (0x1A2, 0x1A6, 2), (0x1A7, 0x1A7, 1), (0x1A9, 0x1A9, 1), (0x1AC, 0x1AC, 1),
   (0x1AE, 0x1AF, 1), (0x1B1, 0x1B3, 1), (0x1B5, 0x1B5, 1), (0x1B7, 0x1B8, 1), (0x1BC, 0x1BC, 1),
   (0x1C4, 0x1C4, 1), (0x1C7, 0x1C7, 1), (0x1CA, 0x1CA, 1), (0x1CD, 0x1DB, 2), (0x1DE, 0x1EE, 2),
   (0x1F1, 0x1F1, 1), (0x1F4, 0x1F4, 1), (0x1F6, 0x1F8, 1), (0x1FA, 0x232, 2), (0x23A, 0x23B, 1),
   (0x23D, 0x23E, 1), (0x241, 0x241, 1), (0x243, 0x246, 1), (0x248, 0x24E, 2), (0x370, 0x370, 1),
   (0x372, 0x372, 1), (0x376, 0x376, 1), (0x37F, 0x37F, 1), (0x386, 0x386, 1), (0x388, 0x38A, 1),
   (0x38C, 0x38C, 1), (0x38E, 0x38F, 1), (0x391, 0x3A1, 1), (0x3A3, 0x3AB, 1), (0x3CF, 0x3CF, 1),
   (0x3D2, 0x3D4, 1), (0x3D8, 0x3EE, 2), (0x3F4, 0x3F4, 1), (0x3F7, 0x3F7, 1), (0x3F9, 0x3FA, 1),
   (0x3FD, 0x42F, 1), (0x460, 0x480, 2), (0x48A, 0x4C0, 2), (0x4C1, 0x4CD, 2), (0x4D0, 0x52E, 2),
   (0x531, 0x556, 1), (0x10A0, 0x10C5, 1), (0x10C7, 0x10C7, 1), (0x10CD, 0x10CD, 1),
   (0x13A0, 0x13F5, 1), (0x1C90, 0x1CBA, 1), (0x1CBD, 0x1CBF, 1), (0x1E00, 0x1E94, 2),
   (0x1E9E, 0x1EFE, 2), (0x1F08, 0x1F0F, 1), (0x1F18, 0x1F1D, 1), (0x1F28, 0x1F2F, 1),
   (0x1F38, 0x1F3F, 1), (0x1F48, 0x1F4D, 1), (0x1F59, 0x1F5F, 2), (0x1F68, 0x1F6F, 1),
   (0x1FB8, 0x1FBB, 1), (0x1FC8, 0x1FCB, 1), (0x1FD8, 0x1FDB, 1), (0x1FE8, 0x1FEC, 1),
   (0x1FF8, 0x1FFB, 1), (0x2102, 0x2102, 1), (0x2107, 0x2107, 1), (0x210B, 0x210D, 1),
   (0x2110, 0x2112, 1), (0x2115, 0x2115, 1), (0x2119, 0x211D, 1), (0x2124, 0x212A, 2),
   (0x212B, 0x212D, 1), (0x2130, 0x2133, 1), (0x213E, 0x213F, 1), (0x2145, 0x2145, 1),
   (0x2183, 0x2183, 1), (0x2C00, 0x2C2F, 1), (0x2C60, 0x2C60, 1), (0x2C62, 0x2C64, 1),
   (0x2C67, 0x2C6D, 2), (0x2C6E, 0x2C70, 1), (0x2C72, 0x2C72, 1), (0x2C75, 0x2C75, 1),
   (0x2C7E, 0x2C80, 1), (0x2C82, 0x2CE2, 2), (0x2CEB, 0x2CEB, 1), (0x2CED, 0x2CED, 1),
   (0x2CF2, 0x2CF2, 1), (0xA640, 0xA66C, 2), (0xA680, 0xA69A, 2), (0xA722, 0xA72E, 2),
   (0xA732, 0xA76E, 2), (0xA779, 0xA77D, 2), (0xA77E, 0xA786, 2), (0xA78B, 0xA78B, 1),
   (0xA78D, 0xA78D, 1), (0xA790, 0xA790, 1), (0xA792, 0xA792, 1), (0xA796, 0xA7AA, 2),
   (0xA7AB, 0xA7AE, 1), (0xA7B0, 0xA7B4, 1), (0xA7B6, 0xA7C4, 2), (0xA7C5, 0xA7C7, 1),
   (0xA7C9, 0xA7C9, 1), (0xA7D0, 0xA7D0, 1), (0xA7D6, 0xA7D6, 1), (0xA7D8, 0xA7D8, 1),
   (0xA7F5, 0xA7F5, 1), (0xFF21, 0xFF3A, 1), (0x10400, 0x10427, 1), (0x104B0, 0x104D3, 1),
   (0x10570, 0x1057A, 1), (0x1057C, 0x1058A, 1), (0x1058C, 0x10592, 1), (0x10594, 0x10595, 1),
   (0x10C80, 0x10CB2, 1), (0x118A0, 0x118BF, 1), (0x16E40, 0x16E5F, 1), (0x1D400, 0x1D419, 1),
   (0x1D434, 0x1D44D, 1), (0x1D468, 0x1D481, 1), (0x1D49C, 0x1D49C, 1), (0x1D49E, 0x1D49F, 1),
   (0x1D4A2, 0x1D4A2, 1), (0x1D4A5, 0x1D4A6, 1), (0x1D4A9, 0x1D4AC, 1), (0x1D4AE, 0x1D4B5, 1),
   (0x1D4D0, 0x1D4E9, 1), (0x1D504, 0x1D505, 1), (0x1D507, 0x1D50A, 1), (0x1D50D, 0x1D514, 1),
   (0x1D516, 0x1D51C, 1), (0x1D538, 0x1D539, 1), (0x1D53B, 0x1D53E, 1), (0x1D540, 0x1D544, 1),
   (0x1D546, 0x1D546, 1), (0x1D54A, 0x1D550, 1), (0x1D56C, 0x1D585, 1), (0x1D5A0, 0x1D5B9, 1),
   (0x1D5D4, 0x1D5ED, 1), (0x1D608, 0x1D621, 1), (0x1D63C, 0x1D655, 1), (0x1D670, 0x1D689, 1),
   (0x1D6A8, 0x1D6C0, 1), (0x1D6E2, 0x1D6FA, 1), (0x1D71C, 0x1D734, 1), (0x1D756, 0x1D76E, 1),
   (0x1D790, 0x1D7A8, 1), (0x1D7CA, 0x1D7CA, 1), (0x1E900, 0x1E921, 1)]

/-- Go `unicode.IsUpper`: the code point is an upper-case letter. -/
def IsUpper (c : Char) : Bool :=
  upperTable.any (inRange c.toNat)

/-- The lower-case mapping: each range with the lower-case form of its first
code point; the forms of the others follow at the same distance. -/
def lowerTable : List ((Nat × Nat × Nat) × Nat) :=
  [((0x41, 0x5A, 1), 0x61), ((0xC0, 0xD6, 1), 0xE0), ((0xD8, 0xDE, 1), 0xF8),
   ((0x100, 0x12E, 2), 0x101), ((0x130, 0x130, 1), 0x69), ((0x132, 0x136, 2), 0x133),
   ((0x139, 0x147, 2), 0x13A), ((0x14A, 0x176, 2), 0x14B), ((0x178, 0x178, 1), 0xFF),
   ((0x179, 0x17D, 2), 0x17A), ((0x181, 0x181, 1), 0x253), ((0x182, 0x182, 1), 0x183),
   ((0x184, 0x184, 1), 0x185), ((0x186, 0x186, 1), 0x254), ((0x187, 0x187, 1), 0x188),
   ((0x189, 0x18A, 1), 0x256), ((0x18B, 0x18B, 1), 0x18C), ((0x18E, 0x18E, 1), 0x1DD),
   ((0x18F, 0x18F, 1), 0x259), ((0x190, 0x190, 1), 0x25B), ((0x191, 0x191, 1), 0x192),
   ((0x193, 0x193, 1), 0x260), ((0x194, 0x194, 1), 0x263), ((0x196, 0x196, 1), 0x269),
   ((0x197, 0x197, 1), 0x268), ((0x198, 0x198, 1), 0x199), ((0x19C, 0x19C, 1), 0x26F),
   ((0x19D, 0x19D, 1), 0x272), ((0x19F, 0x19F, 1), 0x275), ((0x1A0, 0x1A4, 2), 0x1A1),
   ((0x1A6, 0x1A6, 1), 0x280), ((0x1A7, 0x1A7, 1), 0x1A8), ((0x1A9, 0x1A9, 1), 0x283),
   ((0x1AC, 0x1AC, 1), 0x1AD), ((0x1AE, 0x1AE, 1), 0x288), ((0x1AF, 0x1AF, 1), 0x1B0),
   ((0x1B1, 0x1B2, 1), 0x28A), ((0x1B3, 0x1B3, 1), 0x1B4), ((0x1B5, 0x1B5, 1), 0x1B6),
   ((0x1B7, 0x1B7, 1), 0x292), ((0x1B8, 0x1B8, 1), 0x1B9), ((0x1BC, 0x1BC, 1), 0x1BD),
   ((0x1C4, 0x1C4, 1), 0x1C6), ((0x1C5, 0x1C5, 1), 0x1C6), ((0x1C7, 0x1C7, 1), 0x1C9),
   ((0x1C8, 0x1C8, 1), 0x1C9), ((0x1CA, 0x1CA, 1), 0x1CC), ((0x1CB, 0x1DB, 2), 0x1CC),
   ((0x1DE, 0x1EE, 2), 0x1DF), ((0x1F1, 0x1F1, 1), 0x1F3), ((0x1F2, 0x1F2, 1), 0x1F3),
   ((0x1F4, 0x1F4, 1), 0x1F5), ((0x1F6, 0x1F6, 1), 0x195), ((0x1F7, 0x1F7, 1), 0x1BF),
   ((0x1F8, 0x21E, 2), 0x1F9), ((0x220, 0x220, 1), 0x19E), ((0x222, 0x232, 2), 0x223),
   ((0x23A, 0x23A, 1), 0x2C65), ((0x23B, 0x23B, 1), 0x23C), ((0x23D, 0x23D, 1), 0x19A),
   ((0x23E, 0x23E, 1), 0x2C66), ((0x241, 0x241, 1), 0x242), ((0x243, 0x243, 1), 0x180),
   ((0x244, 0x244, 1), 0x289), ((0x245, 0x245, 1), 0x28C), ((0x246, 0x24E, 2), 0x247),
   ((0x370, 0x370, 1), 0x371), ((0x372, 0x372, 1), 0x373), ((0x376, 0x376, 1), 0x377),
   ((0x37F, 0x37F, 1), 0x3F3), ((0x386, 0x386, 1), 0x3AC), ((0x388, 0x38A, 1), 0x3AD),
   ((0x38C, 0x38C, 1), 0x3CC), ((0x38E, 0x38F, 1), 0x3CD), ((0x391, 0x3A1, 1), 0x3B1),
   ((0x3A3, 0x3AB, 1), 0x3C3), ((0x3CF, 0x3CF, 1), 0x3D7), ((0x3D8, 0x3EE, 2), 0x3D9),
   ((0x3F4, 0x3F4, 1), 0x3B8), ((0x3F7, 0x3F7, 1), 0x3F8), ((0x3F9, 0x3F9, 1), 0x3F2),
   ((0x3FA, 0x3FA, 1), 0x3FB), ((0x3FD, 0x3FF, 1), 0x37B), ((0x400, 0x40F, 1), 0x450),
   ((0x410, 0x42F, 1), 0x430), ((0x460, 0x480, 2), 0x461), ((0x48A, 0x4BE, 2), 0x48B),
   ((0x4C0, 0x4C0, 1), 0x4CF), ((0x4C1, 0x4CD, 2), 0x4C2), ((0x4D0, 0x52E, 2), 0x4D1),
   ((0x531, 0x556, 1), 0x561), ((0x10A0, 0x10C5, 1), 0x2D00), ((0x10C7, 0x10C7, 1), 0x2D27),
   ((0x10CD, 0x10CD, 1), 0x2D2D), ((0x13A0, 0x13EF, 1), 0xAB70), ((0x13F0, 0x13F5, 1), 0x13F8),
   ((0x1C90, 0x1CBA, 1), 0x10D0), ((0x1CBD, 0x1CBF, 1), 0x10FD), ((0x1E00, 0x1E94, 2), 0x1E01),
   ((0x1E9E, 0x1E9E, 1), 0xDF), ((0x1EA0, 0x1EFE, 2), 0x1EA1), ((0x1F08, 0x1F0F, 1), 0x1F00),
   ((0x1F18, 0x1F1D, 1), 0x1F10), ((0x1F28, 0x1F2F, 1), 0x1F20), ((0x1F38, 0x1F3F, 1), 0x1F30),
   ((0x1F48, 0x1F4D, 1), 0x1F40), ((0x1F59, 0x1F5F, 2), 0x1F51), ((0x1F68, 0x1F6F, 1), 0x1F60),
   ((0x1F88, 0x1F8F, 1), 0x1F80), ((0x1F98, 0x1F9F, 1), 0x1F90), ((0x1FA8, 0x1FAF, 1), 0x1FA0),
   ((0x1FB8, 0x1FB9, 1), 0x1FB0), ((0x1FBA, 0x1FBB, 1), 0x1F70), ((0x1FBC, 0x1FBC, 1), 0x1FB3),
   ((0x1FC8, 0x1FCB, 1), 0x1F72), ((0x1FCC, 0x1FCC, 1), 0x1FC3), ((0x1FD8, 0x1FD9, 1), 0x1FD0),
   ((0x1FDA, 0x1FDB, 1), 0x1F76), ((0x1FE8, 0x1FE9, 1), 0x1FE0), ((0x1FEA, 0x1FEB, 1), 0x1F7A),
   ((0x1FEC, 0x1FEC, 1), 0x1FE5), ((0x1FF8, 0x1FF9, 1), 0x1F78), ((0x1FFA, 0x1FFB, 1), 0x1F7C),
   ((0x1FFC, 0x1FFC, 1), 0x1FF3), ((0x2126, 0x2126, 1), 0x3C9), ((0x212A, 0x212A, 1), 0x6B),
   ((0x212B, 0x212B, 1), 0xE5), ((0x2132, 0x2132, 1), 0x214E), ((0x2160, 0x216F, 1), 0x2170),
   ((0x2183, 0x2183, 1), 0x2184), ((0x24B6, 0x24CF, 1), 0x24D0), ((0x2C00, 0x2C2F, 1), 0x2C30),
   ((0x2C60, 0x2C60, 1), 0x2C61), ((0x2C62, 0x2C62, 1), 0x26B), ((0x2C63, 0x2C63, 1), 0x1D7D),
   ((0x2C64, 0x2C64, 1), 0x27D), ((0x2C67, 0x2C6B, 2), 0x2C68), ((0x2C6D, 0x2C6D, 1), 0x251),
   ((0x2C6E, 0x2C6E, 1), 0x271), ((0x2C6F, 0x2C6F, 1), 0x250), ((0x2C70, 0x2C70, 1), 0x252),
   ((0x2C72, 0x2C72, 1), 0x2C73), ((0x2C75, 0x2C75, 1), 0x2C76), ((0x2C7E, 0x2C7F, 1), 0x23F),
   ((0x2C80, 0x2CE2, 2), 0x2C81), ((0x2CEB, 0x2CEB, 1), 0x2CEC), ((0x2CED, 0x2CED, 1), 0x2CEE),
   ((0x2CF2, 0x2CF2, 1), 0x2CF3), ((0xA640, 0xA66C, 2), 0xA641), ((0xA680, 0xA69A, 2), 0xA681),
   ((0xA722, 0xA72E, 2), 0xA723), ((0xA732, 0xA76E, 2), 0xA733), ((0xA779, 0xA779, 1), 0xA77A),
   ((0xA77B, 0xA77B, 1), 0xA77C), ((0xA77D, 0xA77D, 1), 0x1D79), ((0xA77E, 0xA786, 2), 0xA77F),
   ((0xA78B, 0xA78B, 1), 0xA78C), ((0xA78D, 0xA78D, 1), 0x265), ((0xA790, 0xA790, 1), 0xA791),
   ((0xA792, 0xA792, 1), 0xA793), ((0xA796, 0xA7A8, 2), 0xA797), ((0xA7AA, 0xA7AA, 1), 0x266),
   ((0xA7AB, 0xA7AB, 1), 0x25C), ((0xA7AC, 0xA7AC, 1), 0x261), ((0xA7AD, 0xA7AD, 1), 0x26C),
   ((0xA7AE, 0xA7AE, 1), 0x26A), ((0xA7B0, 0xA7B0, 1), 0x29E), ((0xA7B1, 0xA7B1, 1), 0x287),
   ((0xA7B2, 0xA7B2, 1), 0x29D), ((0xA7B3, 0xA7B3, 1), 0xAB53), ((0xA7B4, 0xA7C2, 2), 0xA7B5),
   ((0xA7C4, 0xA7C4, 1), 0xA794), ((0xA7C5, 0xA7C5, 1), 0x282), ((0xA7C6, 0xA7C6, 1), 0x1D8E),
   ((0xA7C7, 0xA7C7, 1), 0xA7C8), ((0xA7C9, 0xA7C9, 1), 0xA7CA), ((0xA7D0, 0xA7D0, 1), 0xA7D1),
   ((0xA7D6, 0xA7D6, 1), 0xA7D7), ((0xA7D8, 0xA7D8, 1), 0xA7D9), ((0xA7F5, 0xA7F5, 1), 0xA7F6),
   ((0xFF21, 0xFF3A, 1), 0xFF41), ((0x10400, 0x10427, 1), 0x10428),
   ((0x104B0, 0x104D3, 1), 0x104D8), ((0x10570, 0x1057A, 1), 0x10597),
   ((0x1057C, 0x1058A, 1), 0x105A3), ((0x1058C, 0x10592, 1), 0x105B3),
   ((0x10594, 0x10595, 1), 0x105BB), ((0x10C80, 0x10CB2, 1), 0x10CC0),
   ((0x118A0, 0x118BF, 1), 0x118C0), ((0x16E40, 0x16E5F, 1), 0x16E60),
   ((0x1E900, 0x1E921, 1), 0x1E922)]

/-- The lower-case form of the code point `n` according to the ranges `t`. -/
def lowerOf (n : Nat) : List ((Nat × Nat × Nat) × Nat) → Nat
  | [] => n
  | (r, first) :: rest => if inRange n r then first + (n - r.1) else lowerOf n rest

/-- Go `unicode.ToLower`: the lower-case form of a code point, the code point
itself when it has none. -/
def unicodeToLower (c : Char) : Char :=
  Char.ofNat (lowerOf c.toNat lowerTable)

/-- No white space among the code points `lo, ..., hi`. -/
def spaceFree (lo hi : Nat) : Bool :=
  (decide (hi < 0x09) || decide (0x0D < lo)) && (decide (hi < 0x20) || decide (0x20 < lo)) &&
  (decide (hi < 0x85) || decide (0x85 < lo)) && (decide (hi < 0xA0) || decide (0xA0 < lo)) &&
  (decide (hi < 0x1680) || decide (0x1680 < lo)) &&
  (decide (hi < 0x2000) || decide (0x200A < lo)) &&
  (decide (hi < 0x2028) || decide (0x2029 < lo)) &&
  (decide (hi < 0x202F) || decide (0x202F < lo)) &&
  (decide (hi < 0x205F) || decide (0x205F < lo)) &&
  (decide (hi < 0x3000) || decide (0x3000 < lo))

/-- The code points `lo, ..., hi` are Unicode scalar values: none is a surrogate
and none lies above U+10FFFF. -/
def scalarValues (lo hi : Nat) : Bool :=
  decide (hi < 0xD800) || (decide (0xDFFF < lo) && decide (hi < 0x110000))

/-- The lower-case forms of the entry `e` lie outside the range of the entry `f`:
they end before it, start after it, fall between its code points, or are a
single code point outside it. -/
def apart (e f : (Nat × Nat × Nat) × Nat) : Bool :=
  decide (e.2 + (e.1.2.1 - e.1.1) < f.1.1) || decide (f.1.2.1 < e.2) ||
  (decide (e.1.2.2 = 2) && decide (f.1.2.2 = 2) && decide (e.2 % 2 ≠ f.1.1 % 2)) ||
  (decide (e.1.1 = e.1.2.1) && !inRange e.2 f.1)

/-- The checks on a lower-case table: no range and no range of lower-case forms
holds white space, the lower-case forms are scalar values, and no lower-case
form has a lower-case form of its own. -/
def tableChecks (t : List ((Nat × Nat × Nat) × Nat)) : Bool :=
  t.all fun e =>
    spaceFree e.1.1 e.1.2.1 && spaceFree e.2 (e.2 + (e.1.2.1 - e.1.1)) &&
    scalarValues e.2 (e.2 + (e.1.2.1 - e.1.1)) && t.all (apart e)

/-! ## Matching (`search.go`) -/

/-- The Go type `MatchStrategy` is a string type. -/
abbrev MatchStrategy := Str

def MatchPartial : MatchStrategy := "partial".toList

def MatchExact : MatchStrategy := "exact".toList

/-- Embeds `normalize` of `search.go`. -/
def normalize (lower : Char → Char) (value : Str) : Str :=
  let value := TrimSpace value
  let value := ToLower lower value
  if value = [] then []
  else Join (Fields value) " ".toList

/-- Embeds `matches` of `search.go`; the `default` branch of the switch takes
every strategy other than `MatchExact`. -/
def «matches» (lower : Char → Char) (candidate target : Str) (strategy : MatchStrategy) : Bool :=
  let left := normalize lower candidate
  let right := normalize lower target
  if left = [] ∨ right = [] then false
  else if strategy = MatchExact then decide (left = right)
  else Contains left right || Contains right left

/-- A non-space run: non-empty and free of white space. -/
def IsRun (r : Str) : Prop := r ≠ [] ∧ ∀ c ∈ r, isSpace c = false

/-- A gap: a non-empty run of white space. -/
def IsGap (g : Str) : Prop := g ≠ [] ∧ ∀ c ∈ g, isSpace c = true

/-- The text made of a first run `r0` followed by the (gap, run) pairs `ps`. -/
def spell (r0 : Str) : List (Str × Str) → Str
  | [] => r0
  | p :: rest => r0 ++ p.1 ++ spell p.2 rest

/-! ## Parsed documents (`golang.org/x/net/html`) and selectors (`cascadia`) -/

/-- Tag name and attributes of an element node. -/
structure Element where
  tag : Str
  attr : List (Str × Str)

/-- A node of the parsed tree (`html.Node`): text, comment or element. -/
inductive Node where
  | text (data : Str)
  | comment (data : Str)
  | element (e : Element) (children : List Node)

/-- A parsed document: the children of the document node. -/
abbrev Document := List Node

/-- A single-node goquery selection: an element of the document with its
children and the chain of its ancestor elements, parent first. -/
structure Located where
  ancestors : List Element
  elem : Element
  children : List Node

/-- A goquery `Selection`: the selected elements in document order. -/
abbrev Selection := List Located

/-- A compound selector: optional tag, optional `#id`, and `.class` parts. -/
structure Compound where
  tag : Option Str
  id : Option Str
  classes : List Str

/-- The selectors the repository uses: compound selectors combined by the
descendant combinator (a blank) and the child combinator (`>`). -/
inductive Selector where
  | simple (c : Compound)
  | descendant (a : Selector) (c : Compound)
  | child (a : Selector) (c : Compound)

/-- The separators of a `class` attribute (cascadia `matchInclude`). -/
def isClassSep (c : Char) : Bool :=
  c == ' ' || c == '\t' || c == '\r' || c == '\n' || c.toNat == 0x0C

/-- Cascadia `matchInclude`: `val` is one of the blank-separated words of `s`. -/
def matchInclude (val s : Str) : Bool :=
  decide (val ∈ s.splitOnP isClassSep)

/-- Cascadia `matchAttribute`: some attribute `key` of the element satisfies `f`. -/
def matchAttribute (e : Element) (key : Str) (f : Str → Bool) : Bool :=
  e.attr.any fun a => decide (a.1 = key) && f a.2

/-- An element matches a compound selector when it matches each part. -/
def Compound.Match (c : Compound) (e : Element) : Bool :=
  (match c.tag with
    | none => true
    | some t => decide (e.tag = t)) &&
  (match c.id with
    | none => true
    | some i => matchAttribute e "id".toList fun v => decide (v = i)) &&
  c.classes.all fun cl => matchAttribute e "class".toList fun v => matchInclude cl v

/-- Cascadia `Match` for an element `e` whose ancestor elements are `anc`
(parent first): the child combinator looks at the parent, the descendant
combinator at every ancestor. -/
def Selector.Match : Selector → List Element → Element → Bool
  | .simple c, _, e => c.Match e
  | .descendant a c, anc, e =>
    c.Match e && anc.tails.any fun t =>
      match t with
      | p :: rest => Selector.Match a rest p
      | [] => false
  | .child a c, anc, e =>
    c.Match e &&
      match anc with
      | p :: rest => Selector.Match a rest p
      | [] => false

mutual
/-- Cascadia `MatchAll` on a node below the ancestors `anc`: the node itself
if it matches, then the matches among its descendants, in document order. -/
def Node.matchAll (s : Selector) (anc : List Element) : Node → Selection
  | .text _ => []
  | .comment _ => []
  | .element e children =>
    (if s.Match anc e then [⟨anc, e, children⟩] else []) ++ matchAllList s (e :: anc) children
/-- The matches of `Node.matchAll` over a list of sibling nodes. -/
def matchAllList (s : Selector) (anc : List Element) : List Node → Selection
  | [] => []
  | n :: ns => Node.matchAll s anc n ++ matchAllList s anc ns
end

mutual
/-- The text content of a node: its text descendants, concatenated. -/
def Node.Text : Node → Str
  | .text data => data
  | .comment _ => []
  | .element _ children => textList children
/-- The concatenated text content of a list of sibling nodes. -/
def textList : List Node → Str
  | [] => []
  | n :: ns => Node.Text n ++ textList ns
end

/-- Embeds goquery `Document.Find`: the elements of the document that match. -/
def Document.Find (doc : Document) (s : Selector) : Selection :=
  matchAllList s [] doc

/-- Embeds goquery `Selection.Find` on a single element: its proper descendants that match. -/
def Located.Find (item : Located) (s : Selector) : Selection :=
  matchAllList s (item.elem :: item.ancestors) item.children

/-- Embeds goquery `Selection.Is` on a single element. -/
def Located.Is (item : Located) (s : Selector) : Bool :=
  s.Match item.ancestors item.elem

/-- Embeds goquery `Selection.First().Text()`: the text of the first selected element,
empty for an empty selection. -/
def firstText (sel : Selection) : Str :=
  match sel with
  | [] => []
  | l :: _ => textList l.children

/-- Embeds goquery `Selection.Attr`: the value of the first attribute `key`, if any. -/
def Located.Attr (item : Located) (key : Str) : Option Str :=
  (item.elem.attr.find? fun a => decide (a.1 = key)).map Prod.snd

/-- Compound selector `tag`. -/
def sTag (t : String) : Compound := ⟨some t.toList, none, []⟩

/-- Compound selector `.c1.c2...`. -/
def sClass (cs : List String) : Compound := ⟨none, none, cs.map String.toList⟩

/-- Compound selector `tag.c1.c2...`. -/
def sTagClass (t : String) (cs : List String) : Compound :=
  ⟨some t.toList, none, cs.map String.toList⟩

/-! ## Selector tables of `search.go` -/

def placeListSelectors : List Selector :=
  [ -- "div.Ryr1F#_pcmap_list_scroll_container > ul > li"
    .child (.child (.simple ⟨some "div".toList, some "_pcmap_list_scroll_container".toList,
      ["Ryr1F".toList]⟩) (sTag "ul")) (sTag "li"),
    -- "li.VLTHu"
    .simple (sTagClass "li" ["VLTHu"]),
    -- "li.UEzoS"
    .simple (sTagClass "li" ["UEzoS"]),
    -- "ul._3l82D > li"
    .child (.simple (sTagClass "ul" ["_3l82D"])) (sTag "li"),
    -- "ul._1s-8x > li"
    .child (.simple (sTagClass "ul" ["_1s-8x"])) (sTag "li"),
    -- "div.place_section > ul > li"
    .child (.child (.simple (sTagClass "div" ["place_section"])) (sTag "ul")) (sTag "li"),
    -- ".api_subject_bx > ul > li"
    .child (.child (.simple (sClass ["api_subject_bx"])) (sTag "ul")) (sTag "li"),
    -- "div._1EKsQ li.YjsMB"
    .descendant (.simple (sTagClass "div" ["_1EKsQ"])) (sTagClass "li" ["YjsMB"]) ]

def adSelectors : List Selector :=
  [ -- ".gU6bV._DHlh"
    .simple (sClass ["gU6bV", "_DHlh"]),
    -- ".ad_area"
    .simple (sClass ["ad_area"]),
    -- ".ad-badge"
    .simple (sClass ["ad-badge"]),
    -- ".OErwL"
    .simple (sClass ["OErwL"]),
    -- "span.OErwL"
    .simple (sTagClass "span" ["OErwL"]) ]

def shopNameSelectors : List Selector :=
  [ -- "a.place_bluelink span.YwYLL"
    .descendant (.simple (sTagClass "a" ["place_bluelink"])) (sTagClass "span" ["YwYLL"]),
    -- "span.YwYLL"
    .simple (sTagClass "span" ["YwYLL"]),
    -- ".place_bluelink.tWIhh > span.O_Uah"
    .child (.simple (sClass ["place_bluelink", "tWIhh"])) (sTagClass "span" ["O_Uah"]),
    -- "span.place_bluelink"
    .simple (sTagClass "span" ["place_bluelink"]),
    -- "span.TYaxT"
    .simple (sTagClass "span" ["TYaxT"]),
    -- "span.LDgIH"
    .simple (sTagClass "span" ["LDgIH"]),
    -- "span.OXiLu"
    .simple (sTagClass "span" ["OXiLu"]),
    -- "span._3Apve"
    .simple (sTagClass "span" ["_3Apve"]),
    -- "span.place_bluelink._3Apve"
    .simple (sTagClass "span" ["place_bluelink", "_3Apve"]),
    -- ".place_bluelink"
    .simple (sClass ["place_bluelink"]),
    -- "a.place_link > span"
    .child (.simple (sTagClass "a" ["place_link"])) (sTag "span") ]

/-! ## Locating and reading result items (`search.go`) -/

/-- Embeds `findPlaceItems`, over the selector list `sels`: the selection of the
first selector that selects anything, the empty selection otherwise. -/
def findPlaceItemsIn (doc : Document) : List Selector → Selection
  | [] => []
  | selector :: rest =>
    let selection := doc.Find selector
    if selection.length > 0 then selection else findPlaceItemsIn doc rest

/-- Embeds `findPlaceItems` of `search.go`. -/
def findPlaceItems (doc : Document) : Selection :=
  findPlaceItemsIn doc placeListSelectors

/-- The loop of `isAdItem` over the selector list `sels`. -/
def isAdItemIn (item : Located) : List Selector → Bool
  | [] => false
  | selector :: rest =>
    if item.Is selector || (item.Find selector).length > 0 then true
    else isAdItemIn item rest

/-- Embeds `isAdItem` of `search.go`. -/
def isAdItem (item : Located) : Bool :=
  isAdItemIn item adSelectors

/-- The loop of `extractShopName` over the selector list `sels`. -/
def extractShopNameIn (item : Located) : List Selector → Str
  | [] => []
  | selector :: rest =>
    let text := TrimSpace (firstText (item.Find selector))
    if text ≠ [] then text else extractShopNameIn item rest

/-- Embeds `extractShopName` of `search.go`. -/
def extractShopName (item : Located) : Str :=
  extractShopNameIn item shopNameSelectors

/-! ## Sample documents of `search_test.go` -/

/-- Element node with a tag, a `class` attribute and children. -/
def el (tag cls : String) (children : List Node) : Node :=
  .element ⟨tag.toList, if cls = "" then [] else [("class".toList, cls.toList)]⟩ children

/-- Text node. -/
def tx (s : String) : Node := .text s.toList

/-- The three result items of `sampleHTML`. -/
def sampleItems : List Node :=
  [ tx "\n        ",
    el "li" "" [tx "\n          ", el "span" "OErwL" [tx "ad"], tx "\n          ",
      el "span" "place_bluelink" [tx "Ad Place"], tx "\n        "],
    tx "\n        ",
    el "li" "" [tx "\n          ", el "span" "place_bluelink" [tx "First Place"], tx "\n        "],
    tx "\n        ",
    el "li" "" [tx "\n          ", el "span" "place_bluelink" [tx "Second Place"], tx "\n        "],
    tx "\n      " ]

/-- The parse tree of `sampleHTML`. -/
def sampleHTML : Document :=
  [ el "html" "" [el "head" "" [],
      el "body" "" [tx "\n    ",
        .element ⟨"div".toList, [("class".toList, "Ryr1F".toList),
            ("id".toList, "_pcmap_list_scroll_container".toList)]⟩
          [tx "\n      ", el "ul" "" sampleItems, tx "\n    "],
        tx "\n  \n\n"]] ]

/-- The parse tree of `sampleHTMLWithBadges`. -/
def sampleHTMLWithBadges : Document :=
  [ el "html" "" [el "head" "" [],
      el "body" "" [tx "\n    ",
        el "ul" "" [tx "\n      ",
          el "li" "VLTHu OW9LQ" [tx "\n        ",
            el "a" "place_bluelink U70Fj k4f_J" [tx "\n          ",
              el "span" "YwYLL" [tx "플로리에 케이크"], tx "\n          ",
              el "span" "urQl1" [tx "네이버페이"], tx "\n          ",
              el "span" "urQl1" [tx "톡톡"], tx "\n          ",
              el "span" "YzBgS" [tx "케이크전문"], tx "\n        "],
            tx "\n      "],
          tx "\n    "],
        tx "\n  \n\n"]] ]

/-! ## Ranking (`search.go`) -/

/-- The Go struct `PlaceItem`. -/
structure PlaceItem where
  Rank : Int
  Name : Str
  deriving DecidableEq

/-- The Go struct `ParseError`. -/
structure ParseError where
  Step : Str
  Message : Str
  deriving DecidableEq

/-- The raw bytes of a fetched document. -/
abbrev Bytes := List Nat

/-- The variables of `findRankInHTML` that the closure passed to `items.Each`
updates. Go `int` is 64 bits wide; the counters are bounded by the number of
nodes of the document, so they are modelled without wrap-around. -/
structure ScanState where
  rank : Int
  scanned : Int
  matchedRank : Int
  matchedName : Str
  places : List PlaceItem

/-- The body of the closure passed to `items.Each` in `findRankInHTML`. -/
def scanItem (lower : Char → Char) (shopName : Str) (strategy : MatchStrategy)
    (st : ScanState) (item : Located) : ScanState :=
  if isAdItem item then st
  else
    let rank := st.rank + 1
    let scanned := st.scanned + 1
    let name := extractShopName item
    if name = [] then { st with rank := rank, scanned := scanned }
    else
      let places := st.places ++ [⟨rank, name⟩]
      if st.matchedName = [] ∧ «matches» lower name shopName strategy = true then
        { rank := rank, scanned := scanned, matchedRank := rank, matchedName := name,
          places := places }
      else
        { st with rank := rank, scanned := scanned, places := places }

/-- The five results of `findRankInHTML`; `err = none` stands for a nil error,
and a nil slice is the empty list. -/
structure RankOutput where
  rank : Int
  matchedName : Str
  items : List PlaceItem
  itemsScanned : Int
  err : Option ParseError

/-- The part of `findRankInHTML` that follows the location of the items: the
walk over the located items and the choice of the values returned. -/
def walkItems (lower : Char → Char) (items : Selection) (shopName : Str)
    (strategy : MatchStrategy) : RankOutput :=
  let st := items.foldl (scanItem lower shopName strategy)
    { rank := 0, scanned := 0, matchedRank := -1, matchedName := [], places := [] }
  if st.matchedName = [] then
    { rank := -1, matchedName := [], items := st.places, itemsScanned := st.scanned, err := none }
  else
    { rank := st.matchedRank, matchedName := st.matchedName, items := st.places,
      itemsScanned := st.scanned, err := none }

/-- Embeds `findRankInHTML` of `search.go`. The HTML parser
(`goquery.NewDocumentFromReader`) is the argument `parse`. -/
def findRankInHTML (lower : Char → Char) (parse : Bytes → Except Str Document)
    (html : Bytes) (shopName : Str) (strategy : MatchStrategy) : RankOutput :=
  match parse html with
  | .error msg =>
    { rank := -1, matchedName := [], items := [], itemsScanned := 0,
      err := some ⟨"parse_iframe_html".toList, msg⟩ }
  | .ok doc =>
    let items := findPlaceItems doc
    if items.length = 0 then
      { rank := -1, matchedName := [], items := [], itemsScanned := 0,
        err := some ⟨"find_place_items".toList, "no place items found".toList⟩ }
    else walkItems lower items shopName strategy

/-- The entries that a walk starting after `k` counted items extracts: one per
item that is not an ad and has a non-empty name, ranked by its position among
the items that are not ads. -/
def placeEntries (k : Int) : Selection → List PlaceItem
  | [] => []
  | item :: rest =>
    if isAdItem item then placeEntries k rest
    else if extractShopName item = [] then placeEntries (k + 1) rest
    else ⟨k + 1, extractShopName item⟩ :: placeEntries (k + 1) rest

/-- The document that the HTML parser builds around the content of `body`. -/
def page (body : List Node) : Document :=
  [el "html" "" [el "head" "" [], el "body" "" body]]

/-- The document without content, as parsed from an empty body. -/
def emptyPage : Document := page []

/-- A parser that yields the fixed document `doc`, for the sample documents. -/
def parsesTo (doc : Document) : Bytes → Except Str Document :=
  fun _ => .ok doc

/-- A result list whose first item has no name field. -/
def unnamedHTML : Document :=
  page [ el "ul" "" [el "li" "VLTHu" [el "span" "urQl1" [tx "badge"]],
      el "li" "VLTHu" [el "span" "YwYLL" [tx "Cafe"]]] ]

/-- A result list in which a shop is listed as an ad and again as a regular item. -/
def repeatedHTML : Document :=
  page [ el "ul" "" [el "li" "VLTHu" [el "span" "OErwL" [tx "ad"], el "span" "YwYLL" [tx "Cafe"]],
      el "li" "VLTHu" [el "span" "YwYLL" [tx "Cafe"]]] ]

/-- A result list whose only item is an ad. -/
def adOnlyHTML : Document :=
  page [ el "ul" "" [el "li" "VLTHu" [el "span" "OErwL" [tx "ad"], el "span" "YwYLL" [tx "Cafe"]]] ]

/-! ## Package `net/url`

Percent-encoding works byte by byte, and a decoded string need not be valid
UTF-8: the strings that pass through it are kept as their bytes. -/

/-- A Go string held as its bytes. -/
abbrev RawString := List Nat

/-- The UTF-8 bytes of a code point. -/
def utf8EncodeChar (c : Char) : RawString :=
  let n := c.toNat
  if n < 0x80 then [n]
  else if n < 0x800 then [0xC0 + n / 64, 0x80 + n % 64]
  else if n < 0x10000 then [0xE0 + n / 4096, 0x80 + n / 64 % 64, 0x80 + n % 64]
  else [0xF0 + n / 262144, 0x80 + n / 4096 % 64, 0x80 + n / 64 % 64, 0x80 + n % 64]

/-- The bytes of a text: its UTF-8 encoding. -/
def utf8Encode : Str → RawString
  | [] => []
  | c :: cs => utf8EncodeChar c ++ utf8Encode cs

/-- The escaping modes of `net/url` that the repository reaches. -/
inductive Encoding where
  | encodePath
  | encodePathSegment
  | encodeQueryComponent
  deriving DecidableEq

/-- Go `url.shouldEscape` for the byte `c`. -/
def shouldEscape (c : Nat) (mode : Encoding) : Bool :=
  if (97 ≤ c ∧ c ≤ 122) ∨ (65 ≤ c ∧ c ≤ 90) ∨ (48 ≤ c ∧ c ≤ 57) then false
  else if c = 45 ∨ c = 95 ∨ c = 46 ∨ c = 126 then false
  else if c = 36 ∨ c = 38 ∨ c = 43 ∨ c = 44 ∨ c = 47 ∨ c = 58 ∨ c = 59 ∨ c = 61 ∨ c = 63 ∨
      c = 64 then
    match mode with
    | .encodePath => decide (c = 63)
    | .encodePathSegment => decide (c = 47 ∨ c = 59 ∨ c = 44 ∨ c = 63)
    | .encodeQueryComponent => true
  else true

/-- The upper-case hexadecimal digit of `n < 16`. -/
def upperhex (n : Nat) : Char :=
  if n < 10 then Char.ofNat (48 + n) else Char.ofNat (55 + n)

/-- Go `url.escape`: every byte that `shouldEscape` names becomes `%XX` (a
blank becomes `+` in a query component), the other bytes stay; the result is
ASCII text. -/
def escape (s : RawString) (mode : Encoding) : Str :=
  match s with
  | [] => []
  | c :: rest =>
    if shouldEscape c mode then
      if c = 32 ∧ mode = .encodeQueryComponent then '+' :: escape rest mode
      else '%' :: upperhex (c / 16) :: upperhex (c % 16) :: escape rest mode
    else Char.ofNat c :: escape rest mode

/-- Go `url.unhex`: the value of the hexadecimal digit with byte `c`, if it is one. -/
def unhex (c : Nat) : Option Nat :=
  if 48 ≤ c ∧ c ≤ 57 then some (c - 48)
  else if 97 ≤ c ∧ c ≤ 102 then some (c - 97 + 10)
  else if 65 ≤ c ∧ c ≤ 70 then some (c - 65 + 10)
  else none

/-- Go `url.unescape`, outside the host modes: `%XX` becomes the byte `XX`, `+`
a blank in a query component, the other bytes stay; `none` stands for the
`EscapeError` of a `%` not followed by two hexadecimal digits. -/
def unescape (s : RawString) (mode : Encoding) : Option RawString :=
  match s with
  | [] => some []
  | c :: rest =>
    if c = 37 then
      match rest with
      | h1 :: h2 :: rest2 =>
        match unhex h1, unhex h2 with
        | some a, some b => (unescape rest2 mode).map fun bs => (a * 16 + b) :: bs
        | _, _ => none
      | _ => none
    else if c = 43 ∧ mode = .encodeQueryComponent then
      (unescape rest mode).map fun bs => 32 :: bs
    else (unescape rest mode).map fun bs => c :: bs

/-- Go `url.PathEscape`. -/
def PathEscape (s : RawString) : Str := escape s .encodePathSegment

/-- Go `url.PathUnescape`. -/
def PathUnescape (s : RawString) : Option RawString := unescape s .encodePathSegment

/-- Go `url.QueryEscape`. -/
def QueryEscape (s : RawString) : Str := escape s .encodeQueryComponent

/-- The fields of Go `url.URL` that the model fills in; `Path` is the decoded
path and is kept as bytes. -/
structure URL where
  Scheme : Str
  Host : Str
  Path : RawString
  RawQuery : Str
  Fragment : Str

/-- The text before and after the first occurrence of `sep` (Go `strings.Cut`). -/
def cut (s : Str) (sep : Char) : Str × Str :=
  (s.takeWhile fun c => c != sep, (s.dropWhile fun c => c != sep).drop 1)

/-- A model of Go `url.Parse` for a URL of the shape
`scheme://authority/path?query#fragment` without control bytes, the shape of
every URL that `buildSearchURL` produces: the scheme ends at the first `:`, the
query starts at the first `?`, the authority runs from `//` to the next `/`,
and `Path` is the rest with its percent-escapes decoded (`setPath`; the
documentation of `url.URL` notes that `Path` is stored in decoded form, so that
`/%47%6f%2f` becomes `/Go/`). The authority is not validated. -/
def urlParseModel (rawURL : Str) : Except Str URL :=
  let (u, frag) := cut rawURL '#'
  let (scheme, rest) := cut u ':'
  let (rest, query) := cut rest '?'
  let authority := (rest.drop 2).takeWhile fun c => c != '/'
  let path := (rest.drop 2).dropWhile fun c => c != '/'
  match unescape (utf8Encode path) .encodePath with
  | none => .error "invalid URL escape".toList
  | some p =>
    .ok { Scheme := scheme, Host := authority, Path := p, RawQuery := query, Fragment := frag }

/-- Go `strings.Split` with a one-byte separator. -/
def Split (s : RawString) (sep : Nat) : List RawString :=
  s.splitOnP fun c => c == sep

/-! ## URLs of `search.go` -/

def defaultSearchPrefix : Str := "https://map.naver.com/p/search/".toList

/-- Embeds `buildSearchURL` of `search.go`; the keyword is escaped byte by byte. -/
def buildSearchURL (keyword : Str) : Str :=
  let encoded := PathEscape (utf8Encode keyword)
  defaultSearchPrefix ++ encoded ++ "?searchType=place".toList

/-- Embeds `keywordFromSearchURL` of `search.go`; `urlParse` is Go `url.Parse`,
and 47 is the byte of `/`. The keyword is returned as its bytes. -/
def keywordFromSearchURL (urlParse : Str → Except Str URL) (searchURL : Str) : RawString :=
  match urlParse searchURL with
  | .error _ => []
  | .ok parsed =>
    let parts := Split parsed.Path 47
    match parts.getLast? with
    | none => []
    | some encoded =>
      match PathUnescape encoded with
      | none => []
      | some keyword => keyword

/-- Embeds `fallbackIframeURL` of `search.go`. -/
def fallbackIframeURL (keyword : RawString) : Str :=
  "https://pcmap.place.naver.com/place/list?query=".toList ++ QueryEscape keyword

/-- The loop of `extractIframeURL` over the `iframe` elements: the trimmed `src`
of the first one whose `id` is `searchIframe`, empty when there is none. -/
def iframeSrcOf : Selection → Str
  | [] => []
  | sel :: rest =>
    if (sel.Attr "id".toList).getD [] = "searchIframe".toList then
      TrimSpace ((sel.Attr "src".toList).getD [])
    else iframeSrcOf rest

/-- Embeds `extractIframeURL` of `search.go`. The arguments `urlParse` and
`resolveReference` are Go `url.Parse` and `URL.ResolveReference` followed by
`URL.String`; `parse` is the HTML parser. -/
def extractIframeURL (urlParse : Str → Except Str URL) (resolveReference : URL → URL → Str)
    (parse : Bytes → Except Str Document) (searchURL : Str) (html : Bytes) :
    Str × Option ParseError :=
  match parse html with
  | .error msg => ([], some ⟨"parse_search_html".toList, msg⟩)
  | .ok doc =>
    let iframeSrc := iframeSrcOf (doc.Find (.simple (sTag "iframe")))
    if iframeSrc = [] then (fallbackIframeURL (keywordFromSearchURL urlParse searchURL), none)
    else
      match urlParse searchURL with
      | .error msg => ([], some ⟨"parse_search_url".toList, msg⟩)
      | .ok base =>
        match urlParse iframeSrc with
        | .error msg => ([], some ⟨"parse_iframe_url".toList, msg⟩)
        | .ok iframeURL => (resolveReference base iframeURL, none)

/-! ## The engine (`search.go`) and the response of `main.go` -/

/-- The Go errors that `Engine.Search` can return: an `HTTPStatusError`, a
`ParseError`, an error that is `context.DeadlineExceeded`, or any other
transport error; the last two carry their message. -/
inductive SearchError where
  | httpStatus (URL : Str) (Status : Int)
  | parse (e : ParseError)
  | deadline (message : Str)
  | other (message : Str)
  deriving DecidableEq

/-- The Go struct `SearchResult`. -/
structure SearchResult where
  Keyword : Str
  ShopName : Str
  MatchStrategy : MatchStrategy
  Rank : Int
  Found : Bool
  MatchedName : Str
  ItemsScanned : Int
  Items : List PlaceItem
  SearchURL : Str
  IframeURL : Str

/-- What `Engine.Search` calls outside the repository: the lower-casing table,
the HTML parser, `url.Parse`, `URL.ResolveReference` followed by `URL.String`,
and the HTTP round trip of `Engine.fetch` (headers, context and deadline
included), which yields the body or an error for a URL. -/
structure Collaborators where
  lower : Char → Char
  parse : Bytes → Except Str Document
  urlParse : Str → Except Str URL
  resolveReference : URL → URL → Str
  fetch : Str → Except SearchError Bytes

/-- Embeds `Engine.Search` of `search.go`: the result and the error (`none` for nil). -/
def Search (w : Collaborators) (keyword shopName : Str) (strategy : MatchStrategy) :
    SearchResult × Option SearchError :=
  let result : SearchResult :=
    { Keyword := keyword, ShopName := shopName, MatchStrategy := strategy, Rank := -1,
      Found := false, MatchedName := [], ItemsScanned := 0, Items := [],
      SearchURL := [], IframeURL := [] }
  let searchURL := buildSearchURL keyword
  let result := { result with SearchURL := searchURL }
  match w.fetch searchURL with
  | .error err => (result, some err)
  | .ok body =>
    match extractIframeURL w.urlParse w.resolveReference w.parse searchURL body with
    | (_, some err) => (result, some (.parse err))
    | (iframeURL, none) =>
      let result := { result with IframeURL := iframeURL }
      match w.fetch iframeURL with
      | .error err => (result, some err)
      | .ok iframeBody =>
        let out := findRankInHTML w.lower w.parse iframeBody shopName strategy
        match out.err with
        | some err => (result, some (.parse err))
        | none =>
          let result := { result with ItemsScanned := out.itemsScanned, Items := out.items }
          if out.rank > 0 then
            ({ result with Rank := out.rank, Found := true, MatchedName := out.matchedName },
              none)
          else (result, none)

/-- The Go struct `ErrorInfo`. -/
structure ErrorInfo where
  Code : Str
  Message : Str
  Status : Int

/-- The Go struct `MinimalResponse`. -/
structure MinimalResponse where
  OK : Bool
  Keyword : Str
  ShopName : Str
  Found : Bool
  Rank : Int
  MatchedName : Str
  Items : List PlaceItem
  Error : Option ErrorInfo

/-- The Go struct `FullResponse`, without the two clock readings `Timestamp`
and `DurationMs`. -/
structure FullResponse where
  Minimal : MinimalResponse
  MatchStrategy : Str
  ItemsScanned : Int
  SearchURL : Str
  IframeURL : Str

/-- The fields of the Go struct `options` that the response depends on. -/
structure options where
  Keyword : Str
  ShopName : Str
  Match : MatchStrategy
  Full : Bool

/-- The text of `err.Error()`. -/
def SearchError.Error : SearchError → Str
  | .httpStatus url status =>
    "http status ".toList ++ (toString status).toList ++ " for ".toList ++ url
  | .parse e => e.Step ++ ": ".toList ++ e.Message
  | .deadline message => message
  | .other message => message

/-- Embeds `mapError` of `main.go`. -/
def mapError : Option SearchError → Option ErrorInfo
  | none => none
  | some (.httpStatus url status) =>
    some { Code := "http_status".toList, Message := (SearchError.httpStatus url status).Error,
           Status := status }
  | some (.parse e) =>
    some { Code := "parse_error".toList, Message := (SearchError.parse e).Error, Status := 0 }
  | some (.deadline message) =>
    some { Code := "timeout".toList, Message := message, Status := 0 }
  | some (.other message) =>
    some { Code := "request_error".toList, Message := message, Status := 0 }

/-- The `MinimalResponse` that `main` assembles after the call of `Engine.Search`. -/
def mainMinimal (opts : options) (result : SearchResult) (searchErr : Option SearchError) :
    MinimalResponse :=
  let minimal : MinimalResponse :=
    { OK := searchErr.isNone, Keyword := opts.Keyword, ShopName := opts.ShopName,
      Found := result.Found, Rank := result.Rank, MatchedName := result.MatchedName,
      Items := result.Items, Error := none }
  if searchErr.isSome then
    { minimal with OK := false, Found := false, Rank := -1, MatchedName := [], Items := [],
                   Error := mapError searchErr }
  else minimal

/-- The `FullResponse` that `main` assembles when `opts.Full` is set. -/
def mainFull (opts : options) (result : SearchResult) (searchErr : Option SearchError) :
    FullResponse :=
  let itemsScanned := if searchErr.isSome then 0 else result.ItemsScanned
  let searchURL := if searchErr.isSome then [] else result.SearchURL
  let iframeURL := if searchErr.isSome then [] else result.IframeURL
  { Minimal := mainMinimal opts result searchErr, MatchStrategy := opts.Match,
    ItemsScanned := itemsScanned, SearchURL := searchURL, IframeURL := iframeURL }

/-- The outcome of `URL.ResolveReference` followed by `URL.String` for an
absolute reference without query and fragment: the reference itself. -/
def resolveAbsolute (_base ref : URL) : Str :=
  ref.Scheme ++ "://".toList ++ ref.Host ++ escape ref.Path .encodePath

/-- Collaborators whose every fetch fails with a transport error. -/
def offline : Collaborators :=
  { lower := asciiLower, parse := parsesTo emptyPage, urlParse := urlParseModel,
    resolveReference := resolveAbsolute,
    fetch := fun _ => .error (.other "connection refused".toList) }

/-- Collaborators that serve an empty document at the search URL and fail
every other fetch with status 503. -/
def servesOuter (keyword : Str) : Collaborators :=
  { lower := asciiLower, parse := parsesTo emptyPage, urlParse := urlParseModel,
    resolveReference := resolveAbsolute,
    fetch := fun u =>
      if u = buildSearchURL keyword then .ok [] else .error (.httpStatus u 503) }

/-! ## Lemmas on the string layer -/

theorem startsWith_iff (s p : Str) : startsWith s p = true ↔ p <+: s := by
  induction p generalizing s with
  | nil => simp [startsWith]
  | cons a ps ih =>
    cases s with
    | nil => simp [startsWith]
    | cons c cs =>
      simp only [startsWith, Bool.and_eq_true, beq_iff_eq, ih, List.cons_prefix_cons]
      constructor
      · rintro ⟨h1, h2⟩; exact ⟨h1.symm, h2⟩
      · rintro ⟨h1, h2⟩; exact ⟨h1.symm, h2⟩

theorem contains_iff (s substr : Str) : Contains s substr = true ↔ substr <:+: s := by
  induction s with
  | nil =>
    simp only [Contains, startsWith_iff]
    constructor
    · intro h; exact h.isInfix
    · intro h
      have := List.eq_nil_of_infix_nil h
      subst this; exact List.prefix_rfl
  | cons c cs ih =>
    simp only [Contains, Bool.or_eq_true, startsWith_iff, ih]
    rw [List.infix_cons_iff]

theorem fields_space (c : Char) (cs : Str) (h : isSpace c = true) :
    Fields (c :: cs) = Fields cs := by
  rw [Fields, if_pos h]

theorem fields_nonspace (c : Char) (cs : Str) (h : isSpace c = false) :
    Fields (c :: cs) = consField c cs (Fields cs) := by
  rw [Fields, if_neg (by rw [h]; exact Bool.false_ne_true)]

theorem fields_run (c : Char) (cs : Str) (h : isSpace c = false) :
    Fields (c :: cs) =
      (c :: cs.takeWhile (fun x => !isSpace x)) :: Fields (cs.dropWhile (fun x => !isSpace x)) := by
  induction cs generalizing c with
  | nil => rw [fields_nonspace c _ h]; rfl
  | cons d ds ih =>
    rw [fields_nonspace c _ h]
    cases hd : isSpace d with
    | true =>
      simp only [consField, List.takeWhile, List.dropWhile, hd, Bool.not_true, if_true]
    | false =>
      rw [ih d hd]
      simp only [consField, List.takeWhile, List.dropWhile, hd, Bool.not_false,
        Bool.false_eq_true, if_false]

theorem dropWhile_head_not {p : Char → Bool} (w : Str) (d : Char) (ds : Str)
    (h : w.dropWhile p = d :: ds) : p d = false := by
  have := List.head?_dropWhile_not p w
  rw [h] at this
  simpa using this

theorem fields_dropWhile_space (w : Str) : Fields (w.dropWhile isSpace) = Fields w := by
  induction w with
  | nil => rfl
  | cons c cs ih =>
    cases hc : isSpace c with
    | true => rw [List.dropWhile_cons, if_pos hc, ih, fields_space c cs hc]
    | false => rw [List.dropWhile_cons, if_neg (by rw [hc]; exact Bool.false_ne_true)]

theorem fields_decomp (n : Nat) : ∀ (w : Str), w.length ≤ n → ∀ (c : Char) (cs : Str),
    w = c :: cs → isSpace c = false → (∀ l, w.getLast? = some l → isSpace l = false) →
    ∃ (r0 : Str) (pairs : List (Str × Str)), IsRun r0 ∧ (∀ p ∈ pairs, IsGap p.1 ∧ IsRun p.2) ∧
      w = spell r0 pairs ∧ Fields w = r0 :: pairs.map Prod.snd := by
  induction n with
  | zero =>
    intro w hw c cs hwc
    subst hwc
    simp at hw
  | succ n ih =>
    intro w hw c cs hwc hc hlast
    subst hwc
    have hr0 : IsRun (c :: cs.takeWhile (fun x => !isSpace x)) := by
      refine ⟨List.cons_ne_nil _ _, ?_⟩
      intro x hx
      rcases List.mem_cons.1 hx with rfl | hx
      · exact hc
      · have := List.mem_takeWhile_imp hx
        simpa using this
    have hsplit : c :: cs = (c :: cs.takeWhile (fun x => !isSpace x)) ++
        cs.dropWhile (fun x => !isSpace x) := by
      rw [List.cons_append, List.takeWhile_append_dropWhile]
    cases hrest : cs.dropWhile (fun x => !isSpace x) with
    | nil =>
      refine ⟨_, [], hr0, by simp, ?_, ?_⟩
      · rw [hsplit, hrest]; simp [spell]
      · rw [fields_run c cs hc, hrest]; rfl
    | cons d ds =>
      have hd : isSpace d = true := by
        have := dropWhile_head_not cs d ds hrest
        simpa using this
      have hg : IsGap ((d :: ds).takeWhile isSpace) := by
        refine ⟨by rw [List.takeWhile_cons, if_pos hd]; exact List.cons_ne_nil _ _, ?_⟩
        intro x hx
        exact List.mem_takeWhile_imp hx
      have hsplit2 : d :: ds = (d :: ds).takeWhile isSpace ++ (d :: ds).dropWhile isSpace :=
        (List.takeWhile_append_dropWhile isSpace (d :: ds)).symm
      have hw2 : c :: cs = (c :: cs.takeWhile (fun x => !isSpace x)) ++
          ((d :: ds).takeWhile isSpace ++ (d :: ds).dropWhile isSpace) := by
        rw [← hsplit2, ← hrest]; exact hsplit
      cases hrest2 : (d :: ds).dropWhile isSpace with
      | nil =>
        exfalso
        rw [hrest2, List.append_nil] at hw2
        have hne := hg.1
        obtain ⟨l, hl⟩ : ∃ l, ((d :: ds).takeWhile isSpace).getLast? = some l := by
          cases h : ((d :: ds).takeWhile isSpace).getLast? with
          | none => exact absurd (List.getLast?_eq_none_iff.1 h) hne
          | some l => exact ⟨l, rfl⟩
        have h1 : (c :: cs).getLast? = some l := by
          rw [hw2, List.getLast?_append_of_ne_nil _ hne, hl]
        have h2 := hlast l h1
        have h3 := hg.2 l (List.mem_of_getLast?_eq_some hl)
        rw [h2] at h3
        exact Bool.false_ne_true h3
      | cons e es =>
        have he : isSpace e = false := dropWhile_head_not (d :: ds) e es hrest2
        rw [hrest2] at hw2
        have hlen : (e :: es).length ≤ n := by
          have := congrArg List.length hw2
          simp only [List.length_append, List.length_cons] at this hw ⊢
          have hpos : 0 < ((d :: ds).takeWhile isSpace).length :=
            List.length_pos.2 hg.1
          omega
        have hlast2 : ∀ l, (e :: es).getLast? = some l → isSpace l = false := by
          intro l hl
          apply hlast l
          rw [hw2, ← List.append_assoc,
            List.getLast?_append_of_ne_nil _ (List.cons_ne_nil e es), hl]
        obtain ⟨r1, pairs, hr1, hpairs, hspell, hfields⟩ :=
          ih (e :: es) hlen e es rfl he hlast2
        refine ⟨_, ((d :: ds).takeWhile isSpace, r1) :: pairs, hr0, ?_, ?_, ?_⟩
        · intro p hp
          rcases List.mem_cons.1 hp with rfl | hp
          · exact ⟨hg, hr1⟩
          · exact hpairs p hp
        · rw [spell, ← hspell, List.append_assoc]; exact hw2
        · rw [fields_run c cs hc, hrest, ← fields_dropWhile_space (d :: ds), hrest2, hfields]
          rfl

theorem join_spell (r0 : Str) (pairs : List (Str × Str)) (sep : Str) :
    Join (r0 :: pairs.map Prod.snd) sep = spell r0 (pairs.map fun p => (sep, p.2)) := by
  induction pairs generalizing r0 with
  | nil => rfl
  | cons p rest ih =>
    simp only [List.map_cons, Join, spell]
    rw [ih p.2]

theorem trimSpace_head (s : Str) (c : Char) (h : (TrimSpace s).head? = some c) :
    isSpace c = false := by
  obtain ⟨t, ht⟩ := List.rdropWhile_prefix isSpace (l := s.dropWhile isSpace)
  unfold TrimSpace at h
  cases hr : (s.dropWhile isSpace).rdropWhile isSpace with
  | nil => rw [hr] at h; simp at h
  | cons a r =>
    rw [hr] at h ht
    simp only [List.head?_cons, Option.some.injEq] at h
    subst h
    exact dropWhile_head_not s a (r ++ t) (by rw [← ht]; rfl)

theorem trimSpace_last (s : Str) (c : Char) (h : (TrimSpace s).getLast? = some c) :
    isSpace c = false := by
  have hne : TrimSpace s ≠ [] := by
    intro h0; rw [h0] at h; simp at h
  have hnot := List.rdropWhile_last_not isSpace (s.dropWhile isSpace) hne
  rw [List.getLast?_eq_getLast _ hne] at h
  simp only [Option.some.injEq] at h
  subst h
  simpa [TrimSpace] using hnot

theorem trimSpace_eq_nil_iff (s : Str) : TrimSpace s = [] ↔ ∀ c ∈ s, isSpace c = true := by
  unfold TrimSpace
  rw [List.rdropWhile_eq_nil_iff]
  constructor
  · intro h c hc
    rw [← List.takeWhile_append_dropWhile isSpace s] at hc
    rcases List.mem_append.1 hc with hc | hc
    · exact List.mem_takeWhile_imp hc
    · exact h c hc
  · intro h c hc
    exact h c ((List.dropWhile_suffix isSpace).subset hc)

theorem spell_ne_nil (r0 : Str) (ps : List (Str × Str)) (h : r0 ≠ []) : spell r0 ps ≠ [] := by
  cases ps with
  | nil => exact h
  | cons p rest =>
    rw [spell]
    intro h0
    have := List.append_eq_nil.1 h0
    exact h (List.append_eq_nil.1 this.1).1

theorem spell_head (r0 : Str) (ps : List (Str × Str)) (h : r0 ≠ []) :
    (spell r0 ps).head? = r0.head? := by
  cases ps with
  | nil => rfl
  | cons p rest =>
    rw [spell, List.append_assoc]
    cases r0 with
    | nil => exact absurd rfl h
    | cons a r => rfl

theorem spell_last (ps : List (Str × Str)) : ∀ (r0 : Str) (l : Char), IsRun r0 →
    (∀ p ∈ ps, IsRun p.2) → (spell r0 ps).getLast? = some l → isSpace l = false := by
  induction ps with
  | nil =>
    intro r0 l hr _ hl
    exact hr.2 l (List.mem_of_getLast?_eq_some hl)
  | cons p rest ih =>
    intro r0 l _ hps hl
    have hp : IsRun p.2 := hps p (List.mem_cons_self _ _)
    rw [spell, List.getLast?_append_of_ne_nil _ (spell_ne_nil p.2 rest hp.1)] at hl
    exact ih p.2 l hp (fun q hq => hps q (List.mem_cons_of_mem _ hq)) hl

theorem mem_spell (ps : List (Str × Str)) : ∀ (r0 : Str) (c : Char),
    c ∈ spell r0 ps ↔ c ∈ r0 ∨ ∃ p ∈ ps, c ∈ p.1 ∨ c ∈ p.2 := by
  induction ps with
  | nil => intro r0 c; simp [spell]
  | cons p rest ih =>
    intro r0 c
    rw [spell, List.mem_append, List.mem_append, ih p.2 c]
    simp only [List.mem_cons, exists_eq_or_imp]
    constructor
    · rintro ((h | h) | h | ⟨q, hq, h⟩)
      · exact Or.inl h
      · exact Or.inr (Or.inl (Or.inl h))
      · exact Or.inr (Or.inl (Or.inr h))
      · exact Or.inr (Or.inr ⟨q, hq, h⟩)
    · rintro (h | (h | h) | ⟨q, hq, h⟩)
      · exact Or.inl (Or.inl h)
      · exact Or.inl (Or.inr h)
      · exact Or.inr (Or.inl h)
      · exact Or.inr (Or.inr ⟨q, hq, h⟩)

/-- The lower-cased trimmed text is empty, or splits into runs and gaps whose
runs are the fields that `normalize` joins. -/
theorem normalize_decomp (lower : Char → Char) (h1 : ∀ c, isSpace (lower c) = isSpace c)
    (value : Str) (hne : ToLower lower (TrimSpace value) ≠ []) :
    ∃ (r0 : Str) (pairs : List (Str × Str)), IsRun r0 ∧ (∀ p ∈ pairs, IsGap p.1 ∧ IsRun p.2) ∧
      ToLower lower (TrimSpace value) = spell r0 pairs ∧
      normalize lower value = spell r0 (pairs.map fun p => ([' '], p.2)) := by
  cases hw : ToLower lower (TrimSpace value) with
  | nil => exact absurd hw hne
  | cons c cs =>
    have hc : isSpace c = false := by
      have : (ToLower lower (TrimSpace value)).head? = some c := by rw [hw]; rfl
      unfold ToLower at this
      rw [List.head?_map] at this
      cases hh : (TrimSpace value).head? with
      | none => rw [hh] at this; simp at this
      | some a =>
        rw [hh] at this
        simp only [Option.map_some', Option.some.injEq] at this
        rw [← this, h1]
        exact trimSpace_head value a hh
    have hlast : ∀ l, (c :: cs).getLast? = some l → isSpace l = false := by
      intro l hl
      rw [← hw] at hl
      unfold ToLower at hl
      rw [List.getLast?_map] at hl
      cases hh : (TrimSpace value).getLast? with
      | none => rw [hh] at hl; simp at hl
      | some a =>
        rw [hh] at hl
        simp only [Option.map_some', Option.some.injEq] at hl
        rw [← hl, h1]
        exact trimSpace_last value a hh
    obtain ⟨r0, pairs, hr0, hpairs, hspell, hfields⟩ :=
      fields_decomp (c :: cs).length (c :: cs) (le_refl _) c cs rfl hc hlast
    refine ⟨r0, pairs, hr0, hpairs, hspell, ?_⟩
    unfold normalize
    simp only [hw, if_neg (List.cons_ne_nil c cs), hfields]
    exact join_spell r0 pairs _

theorem normalize_of_nil (lower : Char → Char) (value : Str)
    (h : ToLower lower (TrimSpace value) = []) : normalize lower value = [] := by
  unfold normalize
  simp only [h, if_true]

theorem asciiLower_spec (c : Char) :
    isSpace (asciiLower c) = isSpace c ∧ asciiLower (asciiLower c) = asciiLower c := by
  by_cases h : 65 ≤ c.toNat ∧ c.toNat ≤ 90
  · obtain ⟨n, hn⟩ : ∃ n, c.toNat = n := ⟨_, rfl⟩
    have hc : c = Char.ofNat n := by rw [← hn, Char.ofNat_toNat]
    rw [hn] at h
    subst hc
    obtain ⟨h1, h2⟩ := h
    interval_cases n <;> decide
  · have : asciiLower c = c := by unfold asciiLower; rw [if_neg h]
    rw [this]
    exact ⟨rfl, this⟩

/-- C5: `matches` agrees with its reference definition. It is false under every
strategy when either normalized name is empty; otherwise under `MatchExact` it
holds exactly when the normalized names are equal, and under `MatchPartial`
exactly when one normalized name occurs in the other as a contiguous block. -/
theorem matches_reference (lower : Char → Char) (candidate target : Str) :
    ((normalize lower candidate = [] ∨ normalize lower target = []) →
      ∀ strategy, «matches» lower candidate target strategy = false) ∧
    ((normalize lower candidate ≠ [] ∧ normalize lower target ≠ []) →
      («matches» lower candidate target MatchExact = true ↔
        normalize lower candidate = normalize lower target) ∧
      («matches» lower candidate target MatchPartial = true ↔
        (normalize lower target <:+: normalize lower candidate ∨
          normalize lower candidate <:+: normalize lower target))) := by
  constructor
  · intro h strategy
    unfold «matches»
    simp only [if_pos h]
  · intro h
    have hn : ¬ (normalize lower candidate = [] ∨ normalize lower target = []) := by
      rintro (h0 | h0)
      · exact h.1 h0
      · exact h.2 h0
    have hpe : MatchPartial ≠ MatchExact := by decide
    constructor
    · unfold «matches»
      simp only [if_neg hn, if_true, decide_eq_true_eq]
    · unfold «matches»
      simp only [if_neg hn, if_neg hpe, Bool.or_eq_true, contains_iff]

set_option maxRecDepth 100000 in
set_option maxHeartbeats 2000000 in
theorem lowerTable_checks : tableChecks lowerTable = true := by decide

theorem inRange_bounds (n : Nat) (r : Nat × Nat × Nat) (h : inRange n r = true) :
    r.1 ≤ n ∧ n ≤ r.2.1 ∧ (n - r.1) % r.2.2 = 0 := by
  unfold inRange at h
  exact of_decide_eq_true h

theorem lowerOf_spec (n : Nat) (t : List ((Nat × Nat × Nat) × Nat)) :
    ((∀ e ∈ t, inRange n e.1 = false) ∧ lowerOf n t = n) ∨
    ∃ e ∈ t, inRange n e.1 = true ∧ lowerOf n t = e.2 + (n - e.1.1) := by
  induction t with
  | nil => exact Or.inl ⟨by simp, rfl⟩
  | cons a rest ih =>
    obtain ⟨r, first⟩ := a
    cases hr : inRange n r with
    | true =>
      refine Or.inr ⟨(r, first), List.mem_cons_self _ _, hr, ?_⟩
      simp only [lowerOf, hr, if_true]
    | false =>
      have hl : lowerOf n ((r, first) :: rest) = lowerOf n rest := by
        simp only [lowerOf, hr, Bool.false_eq_true, if_false]
      rcases ih with ⟨hnone, heq⟩ | ⟨e, he, hin, heq⟩
      · refine Or.inl ⟨?_, by rw [hl, heq]⟩
        intro e he
        rcases List.mem_cons.1 he with rfl | he
        · exact hr
        · exact hnone e he
      · exact Or.inr ⟨e, List.mem_cons_of_mem _ he, hin, by rw [hl, heq]⟩

theorem apart_sound (e f : (Nat × Nat × Nat) × Nat) (n : Nat) (h : apart e f = true)
    (hn : inRange n e.1 = true) : inRange (e.2 + (n - e.1.1)) f.1 = false := by
  obtain ⟨h1, h2, h3⟩ := inRange_bounds n e.1 hn
  cases hf : inRange (e.2 + (n - e.1.1)) f.1 with
  | false => rfl
  | true =>
    exfalso
    obtain ⟨g1, g2, g3⟩ := inRange_bounds _ f.1 hf
    unfold apart at h
    simp only [Bool.or_eq_true, Bool.and_eq_true, decide_eq_true_eq, Bool.not_eq_true'] at h
    rcases h with ((h | h) | ⟨⟨ha, hb⟩, hc⟩) | ⟨ha, hb⟩
    · omega
    · omega
    · rw [ha] at h3
      rw [hb] at g3
      omega
    · have : n = e.1.1 := by omega
      rw [this, Nat.sub_self, Nat.add_zero] at hf
      rw [hb] at hf
      exact Bool.false_ne_true hf


theorem toNat_ofNat_of_scalar (m : Nat) (h : Nat.isValidChar m) : (Char.ofNat m).toNat = m := by
  unfold Char.ofNat
  rw [dif_pos h]
  rfl

theorem scalarValues_sound (lo hi m : Nat) (h : scalarValues lo hi = true) (h1 : lo ≤ m)
    (h2 : m ≤ hi) : Nat.isValidChar m := by
  unfold scalarValues at h
  simp only [Bool.or_eq_true, Bool.and_eq_true, decide_eq_true_eq] at h
  unfold Nat.isValidChar
  omega

theorem spaceFree_sound (lo hi : Nat) (h : spaceFree lo hi = true) (c : Char)
    (h1 : lo ≤ c.toNat) (h2 : c.toNat ≤ hi) : isSpace c = false := by
  unfold spaceFree at h
  simp only [Bool.or_eq_true, Bool.and_eq_true, decide_eq_true_eq] at h
  unfold isSpace
  simp only [Bool.or_eq_false_iff, Bool.and_eq_false_imp, beq_eq_false_iff_ne, ne_eq,
    decide_eq_true_eq, decide_eq_false_iff_not]
  omega

theorem tableChecks_mem (t : List ((Nat × Nat × Nat) × Nat)) (h : tableChecks t = true)
    (e : (Nat × Nat × Nat) × Nat) (he : e ∈ t) :
    spaceFree e.1.1 e.1.2.1 = true ∧ spaceFree e.2 (e.2 + (e.1.2.1 - e.1.1)) = true ∧
    scalarValues e.2 (e.2 + (e.1.2.1 - e.1.1)) = true ∧ ∀ f ∈ t, apart e f = true := by
  unfold tableChecks at h
  have := List.all_eq_true.1 h e he
  simp only [Bool.and_eq_true, List.all_eq_true] at this
  exact ⟨this.1.1.1, this.1.1.2, this.1.2, this.2⟩

/-- What `unicode.ToLower` does to a code point: nothing, or the move to the
lower-case form of an entry of the table, which is a scalar value, is no white
space, comes from no white space and has no lower-case form of its own. -/
theorem unicodeToLower_spec (c : Char) :
    unicodeToLower c = c ∨
    (isSpace c = false ∧ isSpace (unicodeToLower c) = false ∧
      unicodeToLower (unicodeToLower c) = unicodeToLower c) := by
  rcases lowerOf_spec c.toNat lowerTable with ⟨_, heq⟩ | ⟨e, he, hin, heq⟩
  · left
    unfold unicodeToLower
    rw [heq, Char.ofNat_toNat]
  · right
    obtain ⟨hs1, hs2, hv, hapart⟩ := tableChecks_mem lowerTable lowerTable_checks e he
    obtain ⟨h1, h2, _⟩ := inRange_bounds _ _ hin
    have hvalid : Nat.isValidChar (e.2 + (c.toNat - e.1.1)) :=
      scalarValues_sound _ _ _ hv (by omega) (by omega)
    have htoNat : (unicodeToLower c).toNat = e.2 + (c.toNat - e.1.1) := by
      unfold unicodeToLower
      rw [heq]
      exact toNat_ofNat_of_scalar _ hvalid
    refine ⟨spaceFree_sound _ _ hs1 c h1 h2, ?_, ?_⟩
    · exact spaceFree_sound _ _ hs2 _ (by rw [htoNat]; omega) (by rw [htoNat]; omega)
    · rcases lowerOf_spec (e.2 + (c.toNat - e.1.1)) lowerTable with ⟨_, heq2⟩ | ⟨f, hf, hin2, _⟩
      · have : unicodeToLower (unicodeToLower c) =
            Char.ofNat (lowerOf (unicodeToLower c).toNat lowerTable) := rfl
        rw [this, htoNat, heq2]
        unfold unicodeToLower
        rw [heq]
      · have := apart_sound e f c.toNat (hapart f hf) hin
        rw [this] at hin2
        exact absurd hin2 Bool.false_ne_true

theorem unicodeToLower_space (c : Char) : isSpace (unicodeToLower c) = isSpace c := by
  rcases unicodeToLower_spec c with h | ⟨h1, h2, _⟩
  · rw [h]
  · rw [h1, h2]

theorem unicodeToLower_idem (c : Char) :
    unicodeToLower (unicodeToLower c) = unicodeToLower c := by
  rcases unicodeToLower_spec c with h | ⟨_, _, h3⟩
  · rw [h, h]
  · exact h3

/-- The canonical form that `normalize` yields under a lower-casing table that
keeps white space white space and is idempotent. -/
theorem normalize_canonical_of_table (lower : Char → Char)
    (hspace : ∀ c, isSpace (lower c) = isSpace c)
    (hidem : ∀ c, lower (lower c) = lower c) (value : Str) :
    (∀ c, (normalize lower value).head? = some c → isSpace c = false) ∧
    (∀ c, (normalize lower value).getLast? = some c → isSpace c = false) ∧
    (∀ c ∈ normalize lower value, c = ' ' ∨ lower c = c) ∧
    (ToLower lower (TrimSpace value) ≠ [] →
      ∃ (r0 : Str) (pairs : List (Str × Str)),
        IsRun r0 ∧ (∀ p ∈ pairs, IsGap p.1 ∧ IsRun p.2) ∧
        ToLower lower (TrimSpace value) = spell r0 pairs ∧
        normalize lower value = spell r0 (pairs.map fun p => ([' '], p.2))) ∧
    (normalize lower value = [] ↔ ∀ c ∈ value, isSpace c = true) := by
  by_cases hw : ToLower lower (TrimSpace value) = []
  · have hout := normalize_of_nil lower value hw
    have htrim : TrimSpace value = [] := by
      unfold ToLower at hw
      exact List.map_eq_nil_iff.1 hw
    rw [hout]
    refine ⟨by simp, by simp, by simp, fun h => absurd hw h, ?_⟩
    simp only [true_iff]
    exact (trimSpace_eq_nil_iff value).1 htrim
  · obtain ⟨r0, pairs, hr0, hpairs, hspell, hout⟩ := normalize_decomp lower hspace value hw
    have hruns : ∀ p ∈ pairs.map (fun p : Str × Str => (([' '] : Str), p.2)), IsRun p.2 := by
      intro p hp
      obtain ⟨q, hq, rfl⟩ := List.mem_map.1 hp
      exact (hpairs q hq).2
    refine ⟨?_, ?_, ?_, fun _ => ⟨r0, pairs, hr0, hpairs, hspell, hout⟩, ?_⟩
    · intro c hc
      rw [hout, spell_head r0 _ hr0.1] at hc
      exact hr0.2 c (List.mem_of_mem_head? hc)
    · intro c hc
      rw [hout] at hc
      exact spell_last _ r0 c hr0 hruns hc
    · intro c hc
      rw [hout, mem_spell] at hc
      have hin : c ∈ ToLower lower (TrimSpace value) ∨ c = ' ' := by
        rcases hc with hc | ⟨p, hp, hc | hc⟩
        · left; rw [hspell, mem_spell]; exact Or.inl hc
        · obtain ⟨q, _, rfl⟩ := List.mem_map.1 hp
          right; simpa using hc
        · obtain ⟨q, hq, rfl⟩ := List.mem_map.1 hp
          left; rw [hspell, mem_spell]; exact Or.inr ⟨q, hq, Or.inr hc⟩
      rcases hin with hin | rfl
      · unfold ToLower at hin
        obtain ⟨a, _, rfl⟩ := List.mem_map.1 hin
        exact Or.inr (hidem a)
      · exact Or.inl rfl
    · constructor
      · intro h0
        rw [hout] at h0
        exact absurd h0 (spell_ne_nil r0 _ hr0.1)
      · intro hall
        have := (trimSpace_eq_nil_iff value).2 hall
        rw [this] at hw
        exact absurd rfl hw

/-- C10, as stated, fails: an upper-case letter that has no lower-case form
stays in the output. `normalize` turns `ϒX ℂ` into `ϒx ℂ`, and U+03D2 and
U+2102 are upper-case letters. -/
theorem normalize_upper_counterexample :
    normalize unicodeToLower "ϒX ℂ".toList = "ϒx ℂ".toList ∧
    IsUpper 'ϒ' = true ∧ IsUpper 'ℂ' = true ∧
    ¬ (∀ c ∈ normalize unicodeToLower "ϒX ℂ".toList, IsUpper c = false) := by
  decide

/-- C10 (amended): `normalize` yields a canonical form for every input string.
The output neither begins nor ends with white space; it holds no code point
that lower-casing (`unicode.ToLower`) changes, so every letter that has a
lower-case form stands in that form; it is the empty string exactly for empty
or whitespace-only input; otherwise the trimmed, lower-cased input is a first
run followed by (gap, run) pairs and the output is the same runs, in order,
with every gap replaced by one ordinary space. -/
theorem normalize_canonical (value : Str) :
    (∀ c, (normalize unicodeToLower value).head? = some c → isSpace c = false) ∧
    (∀ c, (normalize unicodeToLower value).getLast? = some c → isSpace c = false) ∧
    (∀ c ∈ normalize unicodeToLower value, unicodeToLower c = c) ∧
    (ToLower unicodeToLower (TrimSpace value) ≠ [] →
      ∃ (r0 : Str) (pairs : List (Str × Str)),
        IsRun r0 ∧ (∀ p ∈ pairs, IsGap p.1 ∧ IsRun p.2) ∧
        ToLower unicodeToLower (TrimSpace value) = spell r0 pairs ∧
        normalize unicodeToLower value = spell r0 (pairs.map fun p => ([' '], p.2))) ∧
    (normalize unicodeToLower value = [] ↔ ∀ c ∈ value, isSpace c = true) := by
  obtain ⟨h1, h2, h3, h4, h5⟩ :=
    normalize_canonical_of_table unicodeToLower unicodeToLower_space unicodeToLower_idem value
  refine ⟨h1, h2, ?_, h4, h5⟩
  intro c hc
  rcases h3 c hc with rfl | h
  · decide
  · exact h

set_option maxRecDepth 100000 in
/-- Witness for C10 (amended): a name with extra white space and mixed case. -/
theorem normalize_canonical_witness :
    normalize unicodeToLower "  Second \t PLACÉ\n".toList = "second placé".toList ∧
    (∀ c ∈ normalize unicodeToLower "  Second \t PLACÉ\n".toList, unicodeToLower c = c) :=
  ⟨by decide, (normalize_canonical "  Second \t PLACÉ\n".toList).2.2.1⟩

/-! ## Lemmas on the walk over the located items -/

theorem scanItem_ad (lower : Char → Char) (shopName : Str) (strategy : MatchStrategy)
    (st : ScanState) (item : Located) (h : isAdItem item = true) :
    scanItem lower shopName strategy st item = st := by
  unfold scanItem
  rw [if_pos h]

theorem scanItem_unnamed (lower : Char → Char) (shopName : Str) (strategy : MatchStrategy)
    (st : ScanState) (item : Located) (h : isAdItem item = false)
    (hn : extractShopName item = []) :
    scanItem lower shopName strategy st item =
      { st with rank := st.rank + 1, scanned := st.scanned + 1 } := by
  unfold scanItem
  rw [if_neg (by rw [h]; exact Bool.false_ne_true)]
  simp only [hn, if_true]

theorem scanItem_named (lower : Char → Char) (shopName : Str) (strategy : MatchStrategy)
    (st : ScanState) (item : Located) (h : isAdItem item = false)
    (hn : extractShopName item ≠ []) :
    scanItem lower shopName strategy st item =
      if st.matchedName = [] ∧ «matches» lower (extractShopName item) shopName strategy = true then
        { rank := st.rank + 1, scanned := st.scanned + 1, matchedRank := st.rank + 1,
          matchedName := extractShopName item,
          places := st.places ++ [⟨st.rank + 1, extractShopName item⟩] }
      else
        { st with rank := st.rank + 1, scanned := st.scanned + 1,
                  places := st.places ++ [⟨st.rank + 1, extractShopName item⟩] } := by
  unfold scanItem
  rw [if_neg (by rw [h]; exact Bool.false_ne_true)]
  simp only [if_neg hn]

/-- What the walk leaves in each variable of the closure, from any start state. -/
theorem foldl_scan (lower : Char → Char) (shopName : Str) (strategy : MatchStrategy)
    (items : Selection) : ∀ st : ScanState,
    let fin := items.foldl (scanItem lower shopName strategy) st
    fin.places = st.places ++ placeEntries st.rank items ∧
    fin.scanned = st.scanned + ((items.filter fun it => !isAdItem it).length : Int) ∧
    (st.matchedName ≠ [] → fin.matchedName = st.matchedName ∧ fin.matchedRank = st.matchedRank) ∧
    (st.matchedName = [] →
      match (placeEntries st.rank items).find?
          (fun p => «matches» lower p.Name shopName strategy) with
      | some p => fin.matchedName = p.Name ∧ fin.matchedRank = p.Rank
      | none => fin.matchedName = [] ∧ fin.matchedRank = st.matchedRank) := by
  induction items with
  | nil =>
    intro st
    simp [placeEntries]
  | cons item rest ih =>
    intro st
    simp only [List.foldl_cons]
    cases had : isAdItem item with
    | true =>
      rw [scanItem_ad lower shopName strategy st item had]
      have := ih st
      simp only [placeEntries, had, if_true, List.filter_cons, Bool.not_true,
        Bool.false_eq_true, if_false] at this ⊢
      exact this
    | false =>
      by_cases hn : extractShopName item = []
      · rw [scanItem_unnamed lower shopName strategy st item had hn]
        have := ih { st with rank := st.rank + 1, scanned := st.scanned + 1 }
        simp only [placeEntries, had, hn, if_true, List.filter_cons, Bool.not_false,
          Bool.false_eq_true, if_false, List.length_cons, Nat.cast_add, Nat.cast_one] at this ⊢
        obtain ⟨h1, h2, h3, h4⟩ := this
        exact ⟨h1, by rw [h2]; ring, h3, h4⟩
      · rw [scanItem_named lower shopName strategy st item had hn]
        simp only [placeEntries, had, hn, if_true, List.filter_cons, Bool.not_false,
          Bool.false_eq_true, if_false, List.length_cons, Nat.cast_add, Nat.cast_one]
        by_cases hm : st.matchedName = [] ∧
            «matches» lower (extractShopName item) shopName strategy = true
        · rw [if_pos hm]
          obtain ⟨h1, h2, h3, _⟩ := ih
            { rank := st.rank + 1, scanned := st.scanned + 1, matchedRank := st.rank + 1,
              matchedName := extractShopName item,
              places := st.places ++ [⟨st.rank + 1, extractShopName item⟩] }
          simp only at h1 h2 h3
          refine ⟨by rw [h1]; simp, by rw [h2]; ring, fun h => absurd hm.1 h, fun _ => ?_⟩
          rw [List.find?_cons]
          simp only [hm.2]
          exact h3 hn
        · rw [if_neg hm]
          obtain ⟨h1, h2, h3, h4⟩ := ih
            { st with rank := st.rank + 1, scanned := st.scanned + 1,
                      places := st.places ++ [⟨st.rank + 1, extractShopName item⟩] }
          simp only at h1 h2 h3 h4
          refine ⟨by rw [h1]; simp, by rw [h2]; ring, h3, fun h0 => ?_⟩
          have hnm : «matches» lower (extractShopName item) shopName strategy = false := by
            cases hx : «matches» lower (extractShopName item) shopName strategy with
            | false => rfl
            | true => exact absurd ⟨h0, hx⟩ hm
          rw [List.find?_cons]
          simp only [hnm]
          exact h4 h0

theorem placeEntries_mem (items : Selection) : ∀ (k : Int) (p : PlaceItem),
    p ∈ placeEntries k items →
      p.Name ≠ [] ∧ ∃ it ∈ items, isAdItem it = false ∧ extractShopName it = p.Name := by
  induction items with
  | nil => intro k p hp; simp [placeEntries] at hp
  | cons item rest ih =>
    intro k p hp
    cases had : isAdItem item with
    | true =>
      simp only [placeEntries, had, if_true] at hp
      obtain ⟨h1, it, hit, h2⟩ := ih k p hp
      exact ⟨h1, it, List.mem_cons_of_mem _ hit, h2⟩
    | false =>
      by_cases hn : extractShopName item = []
      · simp only [placeEntries, had, hn, if_true, Bool.false_eq_true, if_false] at hp
        obtain ⟨h1, it, hit, h2⟩ := ih (k + 1) p hp
        exact ⟨h1, it, List.mem_cons_of_mem _ hit, h2⟩
      · simp only [placeEntries, had, hn, Bool.false_eq_true, if_false, List.mem_cons] at hp
        rcases hp with rfl | hp
        · exact ⟨hn, item, List.mem_cons_self _ _, had, rfl⟩
        · obtain ⟨h1, it, hit, h2⟩ := ih (k + 1) p hp
          exact ⟨h1, it, List.mem_cons_of_mem _ hit, h2⟩

theorem placeEntries_rank_ge (items : Selection) : ∀ (k : Int) (i : Nat) (p : PlaceItem),
    (placeEntries k items)[i]? = some p → k + (i : Int) + 1 ≤ p.Rank := by
  induction items with
  | nil => intro k i p hp; simp [placeEntries] at hp
  | cons item rest ih =>
    intro k i p hp
    cases had : isAdItem item with
    | true =>
      simp only [placeEntries, had, if_true] at hp
      exact ih k i p hp
    | false =>
      by_cases hn : extractShopName item = []
      · simp only [placeEntries, had, hn, if_true, Bool.false_eq_true, if_false] at hp
        have := ih (k + 1) i p hp
        omega
      · simp only [placeEntries, had, hn, Bool.false_eq_true, if_false] at hp
        cases i with
        | zero =>
          simp only [List.getElem?_cons_zero, Option.some.injEq] at hp
          subst hp
          simp
        | succ j =>
          simp only [List.getElem?_cons_succ] at hp
          have := ih (k + 1) j p hp
          push_cast
          omega

theorem placeEntries_rank_eq (items : Selection)
    (hall : ∀ it ∈ items, isAdItem it = false → extractShopName it ≠ []) :
    ∀ (k : Int) (i : Nat) (p : PlaceItem),
    (placeEntries k items)[i]? = some p → p.Rank = k + (i : Int) + 1 := by
  induction items with
  | nil => intro k i p hp; simp [placeEntries] at hp
  | cons item rest ih =>
    have ih' := ih fun it hit => hall it (List.mem_cons_of_mem _ hit)
    intro k i p hp
    cases had : isAdItem item with
    | true =>
      simp only [placeEntries, had, if_true] at hp
      exact ih' k i p hp
    | false =>
      have hn := hall item (List.mem_cons_self _ _) had
      simp only [placeEntries, had, hn, Bool.false_eq_true, if_false] at hp
      cases i with
      | zero =>
        simp only [List.getElem?_cons_zero, Option.some.injEq] at hp
        subst hp
        simp
      | succ j =>
        simp only [List.getElem?_cons_succ] at hp
        have := ih' (k + 1) j p hp
        push_cast
        omega

theorem placeEntries_split (items : Selection) : ∀ (k : Int) (i : Nat) (p : PlaceItem),
    (placeEntries k items)[i]? = some p →
    ∃ (pre : Selection) (it : Located) (post : Selection),
      items = pre ++ it :: post ∧ isAdItem it = false ∧ extractShopName it = p.Name ∧
      p.Name ≠ [] ∧
      (pre.filter fun x => !isAdItem x && !decide (extractShopName x = [])).length = i ∧
      p.Rank = k + (i : Int) + 1 +
        ((pre.filter fun x => !isAdItem x && decide (extractShopName x = [])).length : Int) := by
  induction items with
  | nil => intro k i p hp; simp [placeEntries] at hp
  | cons item rest ih =>
    intro k i p hp
    cases had : isAdItem item with
    | true =>
      simp only [placeEntries, had, if_true] at hp
      obtain ⟨pre, it, post, h1, h2, h3, h4, h5, h6⟩ := ih k i p hp
      refine ⟨item :: pre, it, post, by rw [h1]; rfl, h2, h3, h4, ?_, ?_⟩
      · simp only [List.filter_cons, had, Bool.not_true, Bool.false_and, Bool.false_eq_true,
          if_false]
        exact h5
      · simp only [List.filter_cons, had, Bool.not_true, Bool.false_and, Bool.false_eq_true,
          if_false]
        exact h6
    | false =>
      by_cases hn : extractShopName item = []
      · simp only [placeEntries, had, hn, if_true, Bool.false_eq_true, if_false] at hp
        obtain ⟨pre, it, post, h1, h2, h3, h4, h5, h6⟩ := ih (k + 1) i p hp
        refine ⟨item :: pre, it, post, by rw [h1]; rfl, h2, h3, h4, ?_, ?_⟩
        · simp only [List.filter_cons, had, hn, Bool.not_false, Bool.true_and, decide_True,
            Bool.not_true, Bool.false_eq_true, if_false]
          exact h5
        · simp only [List.filter_cons, had, hn, Bool.not_false, Bool.true_and, decide_True,
            if_true, List.length_cons, Nat.cast_add, Nat.cast_one]
          rw [h6]
          ring
      · simp only [placeEntries, had, hn, Bool.false_eq_true, if_false] at hp
        cases i with
        | zero =>
          simp only [List.getElem?_cons_zero, Option.some.injEq] at hp
          subst hp
          exact ⟨[], item, rest, rfl, had, rfl, hn, rfl, by simp⟩
        | succ j =>
          simp only [List.getElem?_cons_succ] at hp
          obtain ⟨pre, it, post, h1, h2, h3, h4, h5, h6⟩ := ih (k + 1) j p hp
          refine ⟨item :: pre, it, post, by rw [h1]; rfl, h2, h3, h4, ?_, ?_⟩
          · simp only [List.filter_cons, had, hn, Bool.not_false, Bool.true_and, decide_False,
              if_true, List.length_cons]
            rw [h5]
          · simp only [List.filter_cons, had, hn, Bool.not_false, Bool.true_and, decide_False,
              Bool.false_eq_true, if_false]
            rw [h6]
            push_cast
            ring

theorem placeEntries_length (items : Selection) : ∀ k : Int,
    (placeEntries k items).length +
        (items.filter fun it => !isAdItem it && decide (extractShopName it = [])).length =
      (items.filter fun it => !isAdItem it).length := by
  induction items with
  | nil => intro k; rfl
  | cons item rest ih =>
    intro k
    cases had : isAdItem item with
    | true =>
      simp only [placeEntries, had, if_true, List.filter_cons, Bool.not_true, Bool.false_and,
        Bool.false_eq_true, if_false]
      exact ih k
    | false =>
      by_cases hn : extractShopName item = []
      · simp only [placeEntries, had, hn, if_true, List.filter_cons, Bool.not_false,
          Bool.true_and, decide_True, Bool.false_eq_true, if_false, List.length_cons]
        have := ih (k + 1)
        omega
      · simp only [placeEntries, had, hn, List.filter_cons, Bool.not_false,
          Bool.true_and, decide_False, Bool.false_eq_true, if_false, if_true, List.length_cons]
        have := ih (k + 1)
        omega

theorem foldl_scan_filter (lower : Char → Char) (shopName : Str) (strategy : MatchStrategy)
    (items : Selection) : ∀ st : ScanState,
    (items.filter fun it => !isAdItem it).foldl (scanItem lower shopName strategy) st =
      items.foldl (scanItem lower shopName strategy) st := by
  induction items with
  | nil => intro st; rfl
  | cons item rest ih =>
    intro st
    cases had : isAdItem item with
    | true =>
      simp only [List.filter_cons, had, Bool.not_true, Bool.false_eq_true, if_false,
        List.foldl_cons]
      rw [scanItem_ad lower shopName strategy st item had]
      exact ih st
    | false =>
      simp only [List.filter_cons, had, Bool.not_false, if_true, List.foldl_cons]
      exact ih _

/-- The values that the walk returns, in terms of the extracted entries. -/
theorem walkItems_spec (lower : Char → Char) (items : Selection) (shopName : Str)
    (strategy : MatchStrategy) :
    (walkItems lower items shopName strategy).err = none ∧
    (walkItems lower items shopName strategy).items = placeEntries 0 items ∧
    (walkItems lower items shopName strategy).itemsScanned =
      ((items.filter fun it => !isAdItem it).length : Int) ∧
    match (placeEntries 0 items).find? (fun p => «matches» lower p.Name shopName strategy) with
    | some p => (walkItems lower items shopName strategy).rank = p.Rank ∧
        (walkItems lower items shopName strategy).matchedName = p.Name
    | none => (walkItems lower items shopName strategy).rank = -1 ∧
        (walkItems lower items shopName strategy).matchedName = [] := by
  obtain ⟨h1, h2, _, h4⟩ := foldl_scan lower shopName strategy items
    { rank := 0, scanned := 0, matchedRank := -1, matchedName := [], places := [] }
  simp only [List.nil_append, zero_add] at h1 h2
  have h4 := h4 rfl
  simp only at h4
  unfold walkItems
  cases hf : (placeEntries 0 items).find? (fun p => «matches» lower p.Name shopName strategy) with
  | none =>
    rw [hf] at h4
    simp only [h4.1, if_true]
    refine ⟨trivial, h1, h2, ?_⟩
    trivial
  | some p =>
    rw [hf] at h4
    have hp : p.Name ≠ [] := (placeEntries_mem items 0 p (List.mem_of_find?_eq_some hf)).1
    have hne : ¬ (List.foldl (scanItem lower shopName strategy)
        { rank := 0, scanned := 0, matchedRank := -1, matchedName := [], places := [] }
        items).matchedName = [] := by rw [h4.1]; exact hp
    simp only [if_neg hne]
    exact ⟨trivial, h1, h2, h4.2, h4.1⟩

theorem find?_first {α : Type} (f : α → Bool) (l : List α) : ∀ (i : Nat) (p : α),
    l[i]? = some p → f p = true → (∀ (j : Nat) (q : α), j < i → l[j]? = some q → f q = false) →
    l.find? f = some p := by
  induction l with
  | nil => intro i p hp; simp at hp
  | cons a rest ih =>
    intro i p hp hfp hbefore
    cases i with
    | zero =>
      simp only [List.getElem?_cons_zero, Option.some.injEq] at hp
      subst hp
      rw [List.find?_cons, hfp]
    | succ j =>
      simp only [List.getElem?_cons_succ] at hp
      have ha : f a = false := hbefore 0 a (Nat.succ_pos j) (List.getElem?_cons_zero ..)
      rw [List.find?_cons, ha]
      exact ih j p hp hfp fun j' q hj hq =>
        hbefore (j' + 1) q (Nat.succ_lt_succ hj) (by simpa using hq)

theorem findRankInHTML_ok (lower : Char → Char) (parse : Bytes → Except Str Document)
    (html : Bytes) (shopName : Str) (strategy : MatchStrategy) (doc : Document)
    (hparse : parse html = .ok doc) (hfound : findPlaceItems doc ≠ []) :
    findRankInHTML lower parse html shopName strategy =
      walkItems lower (findPlaceItems doc) shopName strategy := by
  unfold findRankInHTML
  rw [hparse]
  have : ¬ (findPlaceItems doc).length = 0 := fun h => hfound (List.length_eq_zero.1 h)
  simp only [if_neg this]

theorem findRankInHTML_err_none (lower : Char → Char) (parse : Bytes → Except Str Document)
    (html : Bytes) (shopName : Str) (strategy : MatchStrategy)
    (h : (findRankInHTML lower parse html shopName strategy).err = none) :
    ∃ doc, parse html = .ok doc ∧ findPlaceItems doc ≠ [] ∧
      findRankInHTML lower parse html shopName strategy =
        walkItems lower (findPlaceItems doc) shopName strategy := by
  cases hp : parse html with
  | error msg =>
    unfold findRankInHTML at h
    rw [hp] at h
    simp at h
  | ok doc =>
    by_cases hf : findPlaceItems doc = []
    · unfold findRankInHTML at h
      rw [hp] at h
      simp [hf] at h
    · exact ⟨doc, rfl, hf, findRankInHTML_ok lower parse html shopName strategy doc hp hf⟩

theorem findPlaceItemsIn_eq_nil (doc : Document) (sels : List Selector) :
    findPlaceItemsIn doc sels = [] ↔ ∀ s ∈ sels, doc.Find s = [] := by
  induction sels with
  | nil => simp [findPlaceItemsIn]
  | cons sel rest ih =>
    simp only [findPlaceItemsIn, List.mem_cons, forall_eq_or_imp]
    by_cases h : doc.Find sel = []
    · have h0 : ¬ (doc.Find sel).length > 0 := by rw [h]; simp
      rw [if_neg h0, ih]
      exact ⟨fun hr => ⟨h, hr⟩, fun hr => hr.2⟩
    · have h0 : (doc.Find sel).length > 0 := List.length_pos.2 h
      rw [if_pos h0]
      exact ⟨fun hr => absurd hr h, fun hr => hr.1⟩

theorem findPlaceItemsIn_first (doc : Document) (pre : List Selector) (sel : Selector)
    (post : List Selector) (hpre : ∀ s ∈ pre, doc.Find s = []) (hsel : doc.Find sel ≠ []) :
    findPlaceItemsIn doc (pre ++ sel :: post) = doc.Find sel := by
  induction pre with
  | nil =>
    have h0 : (doc.Find sel).length > 0 := List.length_pos.2 hsel
    simp only [List.nil_append, findPlaceItemsIn, if_pos h0]
  | cons a rest ih =>
    have ha : doc.Find a = [] := hpre a (List.mem_cons_self _ _)
    have h0 : ¬ (doc.Find a).length > 0 := by rw [ha]; simp
    simp only [List.cons_append, findPlaceItemsIn, if_neg h0]
    exact ih fun s hs => hpre s (List.mem_cons_of_mem _ hs)

theorem extractShopNameIn_first (item : Located) (pre : List Selector) (sel : Selector)
    (post : List Selector) (hpre : ∀ s ∈ pre, TrimSpace (firstText (item.Find s)) = [])
    (hsel : TrimSpace (firstText (item.Find sel)) ≠ []) :
    extractShopNameIn item (pre ++ sel :: post) = TrimSpace (firstText (item.Find sel)) := by
  induction pre with
  | nil => simp only [List.nil_append, extractShopNameIn, if_pos hsel]
  | cons a rest ih =>
    have ha : ¬ TrimSpace (firstText (item.Find a)) ≠ [] :=
      fun h => h (hpre a (List.mem_cons_self _ _))
    simp only [List.cons_append, extractShopNameIn, if_neg ha]
    exact ih fun s hs => hpre s (List.mem_cons_of_mem _ hs)

theorem extractShopNameIn_none (item : Located) (sels : List Selector)
    (h : ∀ s ∈ sels, TrimSpace (firstText (item.Find s)) = []) :
    extractShopNameIn item sels = [] := by
  induction sels with
  | nil => rfl
  | cons a rest ih =>
    have ha : ¬ TrimSpace (firstText (item.Find a)) ≠ [] :=
      fun h0 => h0 (h a (List.mem_cons_self _ _))
    simp only [extractShopNameIn, if_neg ha]
    exact ih fun s hs => h s (List.mem_cons_of_mem _ hs)

theorem isAdItemIn_iff (item : Located) (sels : List Selector) :
    isAdItemIn item sels = true ↔ ∃ s ∈ sels, item.Is s = true ∨ item.Find s ≠ [] := by
  induction sels with
  | nil => simp [isAdItemIn]
  | cons a rest ih =>
    simp only [isAdItemIn, List.mem_cons, exists_eq_or_imp]
    by_cases h : (item.Is a || decide ((item.Find a).length > 0)) = true
    · rw [if_pos h]
      simp only [Bool.or_eq_true, decide_eq_true_eq] at h
      refine ⟨fun _ => Or.inl ?_, fun _ => rfl⟩
      rcases h with h | h
      · exact Or.inl h
      · exact Or.inr (List.length_pos.1 h)
    · rw [if_neg h, ih]
      simp only [Bool.or_eq_true, decide_eq_true_eq, not_or] at h
      constructor
      · exact fun hr => Or.inr hr
      · rintro (hr | hr)
        · rcases hr with hr | hr
          · exact absurd hr h.1
          · exact absurd (List.length_pos.2 hr) h.2
        · exact hr

/-! ## Claims on `findRankInHTML`, `isAdItem`, `extractShopName`, `findPlaceItems` -/

/-- C1: first match wins in `findRankInHTML`. On a document whose result items
are located, the call succeeds and `items` lists every extracted entry
whatever the target; a match is reported (rank other than -1, non-empty
matched name) exactly when some entry of `items` satisfies `matches`; the rank
and name reported are those of the lowest-index matching entry; and with no
matching entry the rank is -1 and the matched name empty. -/
theorem findRankInHTML_first_match (lower : Char → Char) (parse : Bytes → Except Str Document)
    (html : Bytes) (shopName : Str) (strategy : MatchStrategy) (doc : Document)
    (hparse : parse html = .ok doc) (hfound : findPlaceItems doc ≠ []) :
    (findRankInHTML lower parse html shopName strategy).err = none ∧
    (findRankInHTML lower parse html shopName strategy).items =
      placeEntries 0 (findPlaceItems doc) ∧
    ((findRankInHTML lower parse html shopName strategy).rank ≠ -1 ↔
      ∃ p ∈ (findRankInHTML lower parse html shopName strategy).items,
        «matches» lower p.Name shopName strategy = true) ∧
    ((findRankInHTML lower parse html shopName strategy).matchedName ≠ [] ↔
      ∃ p ∈ (findRankInHTML lower parse html shopName strategy).items,
        «matches» lower p.Name shopName strategy = true) ∧
    (∀ (i : Nat) (p : PlaceItem),
      (findRankInHTML lower parse html shopName strategy).items[i]? = some p →
      «matches» lower p.Name shopName strategy = true →
      (∀ (j : Nat) (q : PlaceItem), j < i →
        (findRankInHTML lower parse html shopName strategy).items[j]? = some q →
        «matches» lower q.Name shopName strategy = false) →
      (findRankInHTML lower parse html shopName strategy).rank = p.Rank ∧
      (findRankInHTML lower parse html shopName strategy).matchedName = p.Name) ∧
    ((∀ p ∈ (findRankInHTML lower parse html shopName strategy).items,
        «matches» lower p.Name shopName strategy = false) →
      (findRankInHTML lower parse html shopName strategy).rank = -1 ∧
      (findRankInHTML lower parse html shopName strategy).matchedName = []) := by
  rw [findRankInHTML_ok lower parse html shopName strategy doc hparse hfound]
  obtain ⟨herr, hitems, _, hmatch⟩ :=
    walkItems_spec lower (findPlaceItems doc) shopName strategy
  rw [hitems]
  cases hf : (placeEntries 0 (findPlaceItems doc)).find?
      (fun p => «matches» lower p.Name shopName strategy) with
  | none =>
    rw [hf] at hmatch
    have hnone : ∀ p ∈ placeEntries 0 (findPlaceItems doc),
        «matches» lower p.Name shopName strategy = false := by
      intro p hp
      have := List.find?_eq_none.1 hf p hp
      simpa using this
    have hno : ¬ ∃ p ∈ placeEntries 0 (findPlaceItems doc),
        «matches» lower p.Name shopName strategy = true := by
      rintro ⟨p, hp, hm⟩
      rw [hnone p hp] at hm
      exact Bool.false_ne_true hm
    refine ⟨herr, rfl, ?_, ?_, ?_, fun _ => hmatch⟩
    · exact ⟨fun h => absurd hmatch.1 h, fun h => absurd h hno⟩
    · exact ⟨fun h => absurd hmatch.2 h, fun h => absurd h hno⟩
    · intro i p hp hm
      have := hnone p (List.getElem?_mem hp)
      rw [this] at hm
      exact absurd hm Bool.false_ne_true
  | some q =>
    rw [hf] at hmatch
    have hq : q ∈ placeEntries 0 (findPlaceItems doc) := List.mem_of_find?_eq_some hf
    have hqm : «matches» lower q.Name shopName strategy = true :=
      List.find?_some (p := fun p : PlaceItem => «matches» lower p.Name shopName strategy) hf
    have hqn : q.Name ≠ [] := (placeEntries_mem _ 0 q hq).1
    have hqr : q.Rank ≠ -1 := by
      obtain ⟨i, hi⟩ := List.mem_iff_getElem?.1 hq
      have := placeEntries_rank_ge _ 0 i q hi
      omega
    refine ⟨herr, rfl, ?_, ?_, ?_, ?_⟩
    · rw [hmatch.1]
      exact ⟨fun _ => ⟨q, hq, hqm⟩, fun _ => hqr⟩
    · rw [hmatch.2]
      exact ⟨fun _ => ⟨q, hq, hqm⟩, fun _ => hqn⟩
    · intro i p hp hm hbefore
      have := find?_first (fun p => «matches» lower p.Name shopName strategy) _ i p hp hm hbefore
      rw [hf] at this
      simp only [Option.some.injEq] at this
      subst this
      exact hmatch
    · intro hall
      have := hall q hq
      rw [this] at hqm
      exact absurd hqm Bool.false_ne_true

/-- Witness for C1: the sample document searched for "Second" under the partial strategy. -/
theorem findRankInHTML_first_match_witness :
    (findRankInHTML asciiLower (parsesTo sampleHTML) [] "Second".toList MatchPartial).err = none ∧
    (findRankInHTML asciiLower (parsesTo sampleHTML) [] "Second".toList MatchPartial).items =
      placeEntries 0 (findPlaceItems sampleHTML) :=
  ⟨(findRankInHTML_first_match asciiLower (parsesTo sampleHTML) [] "Second".toList MatchPartial
      sampleHTML rfl (List.ne_nil_of_length_pos (by decide))).1,
   (findRankInHTML_first_match asciiLower (parsesTo sampleHTML) [] "Second".toList MatchPartial
      sampleHTML rfl (List.ne_nil_of_length_pos (by decide))).2.1⟩

/-- C2, as stated, fails: when a shop is listed as an ad and again as a regular
item, the name of the ad item does appear in `items`. -/
theorem ad_name_counterexample :
    ¬ (∀ it ∈ findPlaceItems repeatedHTML, isAdItem it = true →
        extractShopName it ∉
          (findRankInHTML asciiLower (parsesTo repeatedHTML) [] "Cafe".toList
            MatchPartial).items.map PlaceItem.Name) := by
  decide

/-- C2 (amended): an ad item adds no entry to the output. The results of
`findRankInHTML` are those of walking the located list with all ad items
removed, every entry of `items` is the name of a located item that is not an
ad, and `isAdItem` holds exactly when the item itself matches one of the
`adSelectors` or has a descendant that does. -/
theorem findRankInHTML_ad_exclusion (lower : Char → Char) (parse : Bytes → Except Str Document)
    (html : Bytes) (shopName : Str) (strategy : MatchStrategy) (doc : Document)
    (hparse : parse html = .ok doc) (hfound : findPlaceItems doc ≠ []) :
    findRankInHTML lower parse html shopName strategy =
      walkItems lower ((findPlaceItems doc).filter fun it => !isAdItem it) shopName strategy ∧
    (∀ p ∈ (findRankInHTML lower parse html shopName strategy).items,
      ∃ it ∈ findPlaceItems doc, isAdItem it = false ∧ extractShopName it = p.Name) ∧
    (∀ item : Located, isAdItem item = true ↔
      ∃ s ∈ adSelectors, item.Is s = true ∨ item.Find s ≠ []) := by
  rw [findRankInHTML_ok lower parse html shopName strategy doc hparse hfound]
  refine ⟨?_, ?_, fun item => isAdItemIn_iff item adSelectors⟩
  · unfold walkItems
    rw [foldl_scan_filter]
  · intro p hp
    rw [(walkItems_spec lower (findPlaceItems doc) shopName strategy).2.1] at hp
    exact (placeEntries_mem _ 0 p hp).2

/-- Witness for C2: on the sample document the ad item leaves no trace. -/
theorem findRankInHTML_ad_exclusion_witness :
    findRankInHTML asciiLower (parsesTo sampleHTML) [] "Second".toList MatchPartial =
      walkItems asciiLower ((findPlaceItems sampleHTML).filter fun it => !isAdItem it)
        "Second".toList MatchPartial :=
  (findRankInHTML_ad_exclusion asciiLower (parsesTo sampleHTML) [] "Second".toList MatchPartial
      sampleHTML rfl (List.ne_nil_of_length_pos (by decide))).1

/-- C3, as stated, fails: an item without a name is counted but not listed, so
the first entry of `items` can have rank 2. -/
theorem rank_index_counterexample :
    (findRankInHTML asciiLower (parsesTo unnamedHTML) [] "Cafe".toList MatchPartial).err = none ∧
    ¬ (∀ (i : Nat) (p : PlaceItem),
        (findRankInHTML asciiLower (parsesTo unnamedHTML) [] "Cafe".toList
          MatchPartial).items[i]? = some p → p.Rank = (i : Int) + 1) := by
  refine ⟨by decide, fun h => ?_⟩
  have := h 0 ⟨2, "Cafe".toList⟩ (by decide)
  revert this
  decide

/-- C3 (amended): when `findRankInHTML` succeeds, the entry of `items` at index
`i` has rank `i + 1` plus the number of located items that are not ads, have an
empty extracted name and precede the item the entry was extracted from; so the
rank is `i + 1` for every entry that no such item precedes, and never less. -/
theorem findRankInHTML_rank_index (lower : Char → Char) (parse : Bytes → Except Str Document)
    (html : Bytes) (shopName : Str) (strategy : MatchStrategy) (doc : Document)
    (hparse : parse html = .ok doc)
    (hok : (findRankInHTML lower parse html shopName strategy).err = none) :
    ∀ (i : Nat) (p : PlaceItem),
      (findRankInHTML lower parse html shopName strategy).items[i]? = some p →
      (i : Int) + 1 ≤ p.Rank ∧
      ∃ (pre : Selection) (it : Located) (post : Selection),
        findPlaceItems doc = pre ++ it :: post ∧ isAdItem it = false ∧
        extractShopName it = p.Name ∧ p.Name ≠ [] ∧
        (pre.filter fun x => !isAdItem x && !decide (extractShopName x = [])).length = i ∧
        p.Rank = (i : Int) + 1 +
          ((pre.filter fun x => !isAdItem x && decide (extractShopName x = [])).length : Int) := by
  obtain ⟨doc2, hparse2, _, heq⟩ :=
    findRankInHTML_err_none lower parse html shopName strategy hok
  rw [hparse] at hparse2
  cases hparse2
  rw [heq, (walkItems_spec lower (findPlaceItems doc) shopName strategy).2.1]
  intro i p hp
  obtain ⟨pre, it, post, h1, h2, h3, h4, h5, h6⟩ := placeEntries_split _ 0 i p hp
  refine ⟨?_, pre, it, post, h1, h2, h3, h4, h5, by rw [h6]; ring⟩
  have := placeEntries_rank_ge _ 0 i p hp
  omega

/-- Witness for C3 (amended): in the list whose first item has no name, the
only entry, at index 0, has rank 2: one unnamed item precedes its item. -/
theorem findRankInHTML_rank_index_witness :
    (0 : Int) + 1 ≤ (⟨2, "Cafe".toList⟩ : PlaceItem).Rank ∧
    ∃ (pre : Selection) (it : Located) (post : Selection),
      findPlaceItems unnamedHTML = pre ++ it :: post ∧ isAdItem it = false ∧
      extractShopName it = "Cafe".toList ∧ "Cafe".toList ≠ [] ∧
      (pre.filter fun x => !isAdItem x && !decide (extractShopName x = [])).length = 0 ∧
      (2 : Int) = (0 : Int) + 1 +
        ((pre.filter fun x => !isAdItem x && decide (extractShopName x = [])).length : Int) :=
  findRankInHTML_rank_index asciiLower (parsesTo unnamedHTML) [] "Cafe".toList MatchPartial
    unnamedHTML rfl (by decide) 0 ⟨2, "Cafe".toList⟩ (by decide)

/-- C4, as stated, fails: an item without a name is scanned but not listed, so
`itemsScanned` is 2 while `items` has one entry. -/
theorem itemsScanned_counterexample :
    (findRankInHTML asciiLower (parsesTo unnamedHTML) [] "Cafe".toList MatchPartial).err = none ∧
    (findRankInHTML asciiLower (parsesTo unnamedHTML) [] "Cafe".toList MatchPartial).itemsScanned
      = 2 ∧
    (findRankInHTML asciiLower (parsesTo unnamedHTML) [] "Cafe".toList MatchPartial).items.length
      = 1 := by
  decide

/-- C4 (amended): when `findRankInHTML` succeeds, `itemsScanned` is the number
of located items that are not ads, which is the length of `items` plus the
number of such items whose extracted name is empty; so it is never less than
the length of `items`. -/
theorem findRankInHTML_itemsScanned (lower : Char → Char) (parse : Bytes → Except Str Document)
    (html : Bytes) (shopName : Str) (strategy : MatchStrategy)
    (hok : (findRankInHTML lower parse html shopName strategy).err = none) :
    ((findRankInHTML lower parse html shopName strategy).items.length : Int) ≤
      (findRankInHTML lower parse html shopName strategy).itemsScanned ∧
    ∃ doc, parse html = .ok doc ∧
      (findRankInHTML lower parse html shopName strategy).itemsScanned =
        (((findPlaceItems doc).filter fun it => !isAdItem it).length : Int) ∧
      (findRankInHTML lower parse html shopName strategy).itemsScanned =
        ((findRankInHTML lower parse html shopName strategy).items.length : Int) +
        (((findPlaceItems doc).filter fun it =>
            !isAdItem it && decide (extractShopName it = [])).length : Int) := by
  obtain ⟨doc, hparse, _, heq⟩ := findRankInHTML_err_none lower parse html shopName strategy hok
  obtain ⟨_, hitems, hscan, _⟩ := walkItems_spec lower (findPlaceItems doc) shopName strategy
  have hlen := placeEntries_length (findPlaceItems doc) 0
  rw [heq, hitems, hscan]
  refine ⟨by omega, doc, hparse, rfl, by omega⟩

/-- Witness for C4 (amended): the sample document. -/
theorem findRankInHTML_itemsScanned_witness :
    ((findRankInHTML asciiLower (parsesTo sampleHTML) [] "Second".toList
        MatchPartial).items.length : Int) ≤
      (findRankInHTML asciiLower (parsesTo sampleHTML) [] "Second".toList
        MatchPartial).itemsScanned :=
  (findRankInHTML_itemsScanned asciiLower (parsesTo sampleHTML) [] "Second".toList MatchPartial
    (by decide)).1

/-- C6: the name-field cascade of `extractShopName`. The result is the trimmed
text of the first element selected by the earliest selector of
`shopNameSelectors` whose first selected element has non-blank text, and the
empty string when no selector has one. On the document of
`TestExtractShopNameWithBadges` the name is therefore the text of the name
field alone, not the text of the link that also holds the badge fragments. -/
theorem extractShopName_cascade (item : Located) :
    (∀ (pre : List Selector) (sel : Selector) (post : List Selector),
      shopNameSelectors = pre ++ sel :: post →
      (∀ s ∈ pre, TrimSpace (firstText (item.Find s)) = []) →
      TrimSpace (firstText (item.Find sel)) ≠ [] →
      extractShopName item = TrimSpace (firstText (item.Find sel))) ∧
    ((∀ s ∈ shopNameSelectors, TrimSpace (firstText (item.Find s)) = []) →
      extractShopName item = []) ∧
    (findPlaceItems sampleHTMLWithBadges).map extractShopName = ["플로리에 케이크".toList] ∧
    (findPlaceItems sampleHTMLWithBadges).map
        (fun it => TrimSpace (firstText (it.Find (.simple (sClass ["place_bluelink"]))))) =
      ["플로리에 케이크\n          네이버페이\n          톡톡\n          케이크전문".toList] := by
  refine ⟨?_, ?_, by decide, by decide⟩
  · intro pre sel post hsplit hpre hsel
    unfold extractShopName
    rw [hsplit]
    exact extractShopNameIn_first item pre sel post hpre hsel
  · intro h
    exact extractShopNameIn_none item shopNameSelectors h

/-- C7: structural failure versus zero results. For a document that parses,
`findRankInHTML` fails exactly when every selector of `placeListSelectors`
selects nothing, and the failure is the `find_place_items` error with rank -1,
no items and nothing scanned; otherwise the items walked are those of the first
selector that selects anything, and the call succeeds even when every walked
item is an ad, with rank -1, empty matched name, no items and nothing scanned. -/
theorem findRankInHTML_structural (lower : Char → Char) (parse : Bytes → Except Str Document)
    (html : Bytes) (shopName : Str) (strategy : MatchStrategy) (doc : Document)
    (hparse : parse html = .ok doc) :
    ((findRankInHTML lower parse html shopName strategy).err ≠ none ↔
      ∀ s ∈ placeListSelectors, doc.Find s = []) ∧
    ((findRankInHTML lower parse html shopName strategy).err ≠ none →
      (findRankInHTML lower parse html shopName strategy).err =
          some ⟨"find_place_items".toList, "no place items found".toList⟩ ∧
      (findRankInHTML lower parse html shopName strategy).rank = -1 ∧
      (findRankInHTML lower parse html shopName strategy).matchedName = [] ∧
      (findRankInHTML lower parse html shopName strategy).items = [] ∧
      (findRankInHTML lower parse html shopName strategy).itemsScanned = 0) ∧
    (∀ (pre : List Selector) (sel : Selector) (post : List Selector),
      placeListSelectors = pre ++ sel :: post →
      (∀ s ∈ pre, doc.Find s = []) → doc.Find sel ≠ [] →
      findRankInHTML lower parse html shopName strategy =
        walkItems lower (doc.Find sel) shopName strategy) ∧
    ((∃ s ∈ placeListSelectors, doc.Find s ≠ []) →
      (∀ it ∈ findPlaceItems doc, isAdItem it = true) →
      (findRankInHTML lower parse html shopName strategy).err = none ∧
      (findRankInHTML lower parse html shopName strategy).rank = -1 ∧
      (findRankInHTML lower parse html shopName strategy).matchedName = [] ∧
      (findRankInHTML lower parse html shopName strategy).items = [] ∧
      (findRankInHTML lower parse html shopName strategy).itemsScanned = 0) := by
  have hnil := findPlaceItemsIn_eq_nil doc placeListSelectors
  by_cases hf : findPlaceItems doc = []
  · have hall : ∀ s ∈ placeListSelectors, doc.Find s = [] := hnil.1 hf
    have hval : findRankInHTML lower parse html shopName strategy =
        { rank := -1, matchedName := [], items := [], itemsScanned := 0,
          err := some ⟨"find_place_items".toList, "no place items found".toList⟩ } := by
      unfold findRankInHTML
      rw [hparse]
      simp only [hf, List.length_nil, if_true]
    rw [hval]
    refine ⟨⟨fun _ => hall, fun _ => by simp⟩, fun _ => ⟨rfl, rfl, rfl, rfl, rfl⟩, ?_, ?_⟩
    · intro pre sel post hsplit _ hsel
      exact absurd (hall sel (by rw [hsplit]; simp)) hsel
    · rintro ⟨s, hs, hne⟩
      exact absurd (hall s hs) hne
  · have hval := findRankInHTML_ok lower parse html shopName strategy doc hparse hf
    obtain ⟨herr, hitems, hscan, hmatch⟩ :=
      walkItems_spec lower (findPlaceItems doc) shopName strategy
    rw [hval]
    refine ⟨?_, ?_, ?_, ?_⟩
    · constructor
      · intro h
        exact absurd herr h
      · intro h
        exact absurd (hnil.2 h) hf
    · intro h
      exact absurd herr h
    · intro pre sel post hsplit hpre hsel
      have : findPlaceItems doc = doc.Find sel := by
        unfold findPlaceItems
        rw [hsplit]
        exact findPlaceItemsIn_first doc pre sel post hpre hsel
      rw [this]
    · intro _ hads
      have hfilter : (findPlaceItems doc).filter (fun it => !isAdItem it) = [] := by
        rw [List.filter_eq_nil_iff]
        intro it hit
        rw [hads it hit]
        simp
      have hentries : placeEntries 0 (findPlaceItems doc) = [] := by
        cases hp : placeEntries 0 (findPlaceItems doc) with
        | nil => rfl
        | cons p rest =>
          obtain ⟨_, it, hit, had, _⟩ :=
            placeEntries_mem (findPlaceItems doc) 0 p (by rw [hp]; exact List.mem_cons_self _ _)
          rw [hads it hit] at had
          exact absurd had (by simp)
      rw [hentries] at hmatch hitems
      rw [hfilter] at hscan
      simp only [List.find?_nil] at hmatch
      exact ⟨herr, hmatch.1, hmatch.2, hitems, by rw [hscan]; rfl⟩

/-- Witness for C7: a list whose only item is an ad is found by the second
selector and walked, and the call succeeds with rank -1 and no items. -/
theorem findRankInHTML_structural_witness :
    (findRankInHTML asciiLower (parsesTo adOnlyHTML) [] "Cafe".toList MatchPartial).err = none ∧
    (findRankInHTML asciiLower (parsesTo adOnlyHTML) [] "Cafe".toList MatchPartial).rank = -1 ∧
    (findRankInHTML asciiLower (parsesTo adOnlyHTML) [] "Cafe".toList MatchPartial).matchedName
      = [] ∧
    (findRankInHTML asciiLower (parsesTo adOnlyHTML) [] "Cafe".toList MatchPartial).items = [] ∧
    (findRankInHTML asciiLower (parsesTo adOnlyHTML) [] "Cafe".toList MatchPartial).itemsScanned
      = 0 :=
  (findRankInHTML_structural asciiLower (parsesTo adOnlyHTML) [] "Cafe".toList MatchPartial
    adOnlyHTML rfl).2.2.2
    ⟨_, List.mem_cons_of_mem _ (List.mem_cons_self _ _), List.ne_nil_of_length_pos (by decide)⟩
    (by decide)

/-! ## Claims on the URLs and on `Engine.Search` -/

theorem mapError_some (err : SearchError) : mapError (some err) ≠ none := by
  cases err <;> simp [mapError]

/-- What `Engine.Search` returns together with an error. -/
theorem search_error_result (w : Collaborators) (keyword shopName : Str)
    (strategy : MatchStrategy) (herr : (Search w keyword shopName strategy).2 ≠ none) :
    ∃ iframeURL : Str,
      (Search w keyword shopName strategy).1 =
        { Keyword := keyword, ShopName := shopName, MatchStrategy := strategy, Rank := -1,
          Found := false, MatchedName := [], ItemsScanned := 0, Items := [],
          SearchURL := buildSearchURL keyword, IframeURL := iframeURL } ∧
      (iframeURL = [] ∨ ∃ body, w.fetch (buildSearchURL keyword) = .ok body ∧
        extractIframeURL w.urlParse w.resolveReference w.parse (buildSearchURL keyword) body =
          (iframeURL, none)) := by
  unfold Search at herr ⊢
  cases h1 : w.fetch (buildSearchURL keyword) with
  | error e =>
    simp only [h1]
    exact ⟨[], rfl, Or.inl rfl⟩
  | ok body =>
    simp only [h1] at herr ⊢
    cases h2 : extractIframeURL w.urlParse w.resolveReference w.parse
        (buildSearchURL keyword) body with
    | mk iframeURL perr =>
      cases perr with
      | some e =>
        simp only [h2]
        exact ⟨[], rfl, Or.inl rfl⟩
      | none =>
        simp only [h2] at herr ⊢
        cases h3 : w.fetch iframeURL with
        | error e =>
          simp only [h3]
          exact ⟨iframeURL, rfl, Or.inr ⟨body, rfl, h2⟩⟩
        | ok iframeBody =>
          simp only [h3] at herr ⊢
          cases h4 : (findRankInHTML w.lower w.parse iframeBody shopName strategy).err with
          | some e =>
            simp only [h4]
            exact ⟨iframeURL, rfl, Or.inr ⟨body, rfl, h2⟩⟩
          | none =>
            exfalso
            simp only [h4] at herr
            split at herr <;> exact herr rfl

/-- A keyword without `/` and `%` is recovered from its search URL. -/
theorem keywordFromSearchURL_plain_example :
    keywordFromSearchURL urlParseModel (buildSearchURL "강남 카페".toList) =
      utf8Encode "강남 카페".toList := by
  decide

/-- A keyword that spells an escape is decoded once more: `%ff` gives the single
byte 255, and the fallback URL is built for that byte. -/
theorem keywordFromSearchURL_raw_example :
    keywordFromSearchURL urlParseModel (buildSearchURL "%ff".toList) = [255] ∧
    fallbackIframeURL (keywordFromSearchURL urlParseModel (buildSearchURL "%ff".toList)) =
      "https://pcmap.place.naver.com/place/list?query=%FF".toList := by
  decide

/-- C8: the keyword is not recovered from the search URL of the keyword `a/b`.
`buildSearchURL` escapes the slash, `url.Parse` decodes it again in `Path`, and
`keywordFromSearchURL` keeps only the text after the last slash, so the
fallback URL is built for `b`; for `100%` the second decoding fails and the
keyword recovered is empty. -/
theorem keywordFromSearchURL_slash :
    buildSearchURL "a/b".toList =
      "https://map.naver.com/p/search/a%2Fb?searchType=place".toList ∧
    keywordFromSearchURL urlParseModel (buildSearchURL "a/b".toList) = utf8Encode "b".toList ∧
    extractIframeURL urlParseModel resolveAbsolute (parsesTo sampleHTML)
        (buildSearchURL "a/b".toList) [] =
      ("https://pcmap.place.naver.com/place/list?query=b".toList, none) ∧
    fallbackIframeURL (utf8Encode "a/b".toList) =
      "https://pcmap.place.naver.com/place/list?query=a%2Fb".toList ∧
    keywordFromSearchURL urlParseModel (buildSearchURL "100%".toList) = [] := by
  decide

/-- C9, as stated, fails: when the first fetch fails, the result returned with
the error carries the search URL. -/
theorem search_error_counterexample :
    (Search offline "a".toList "b".toList MatchPartial).2.isSome = true ∧
    (Search offline "a".toList "b".toList MatchPartial).1.SearchURL =
      "https://map.naver.com/p/search/a?searchType=place".toList ∧
    (Search offline "a".toList "b".toList MatchPartial).1.SearchURL ≠ [] := by
  decide

/-- C9 (amended): an error leaves no ranking in the result. Whenever
`Engine.Search` returns an error, the result returned with it has found=false,
rank=-1, empty matched name, no items and nothing scanned; it carries the
search URL that was built, and its iframe URL is empty or the located one. The
response that `main` assembles has ok=false, a non-null error, found=false,
rank=-1, empty matched name and no items, and the full response has
itemsScanned=0 and empty search and iframe URLs. -/
theorem search_error_outcome (w : Collaborators) (opts : options)
    (herr : (Search w opts.Keyword opts.ShopName opts.Match).2 ≠ none) :
    ((Search w opts.Keyword opts.ShopName opts.Match).1.Found = false ∧
     (Search w opts.Keyword opts.ShopName opts.Match).1.Rank = -1 ∧
     (Search w opts.Keyword opts.ShopName opts.Match).1.MatchedName = [] ∧
     (Search w opts.Keyword opts.ShopName opts.Match).1.Items = [] ∧
     (Search w opts.Keyword opts.ShopName opts.Match).1.ItemsScanned = 0) ∧
    ((Search w opts.Keyword opts.ShopName opts.Match).1.SearchURL =
        buildSearchURL opts.Keyword ∧
     ((Search w opts.Keyword opts.ShopName opts.Match).1.IframeURL = [] ∨
      ∃ body, w.fetch (buildSearchURL opts.Keyword) = .ok body ∧
        extractIframeURL w.urlParse w.resolveReference w.parse
            (buildSearchURL opts.Keyword) body =
          ((Search w opts.Keyword opts.ShopName opts.Match).1.IframeURL, none))) ∧
    ((mainMinimal opts (Search w opts.Keyword opts.ShopName opts.Match).1
        (Search w opts.Keyword opts.ShopName opts.Match).2).OK = false ∧
     (mainMinimal opts (Search w opts.Keyword opts.ShopName opts.Match).1
        (Search w opts.Keyword opts.ShopName opts.Match).2).Error ≠ none ∧
     (mainMinimal opts (Search w opts.Keyword opts.ShopName opts.Match).1
        (Search w opts.Keyword opts.ShopName opts.Match).2).Found = false ∧
     (mainMinimal opts (Search w opts.Keyword opts.ShopName opts.Match).1
        (Search w opts.Keyword opts.ShopName opts.Match).2).Rank = -1 ∧
     (mainMinimal opts (Search w opts.Keyword opts.ShopName opts.Match).1
        (Search w opts.Keyword opts.ShopName opts.Match).2).MatchedName = [] ∧
     (mainMinimal opts (Search w opts.Keyword opts.ShopName opts.Match).1
        (Search w opts.Keyword opts.ShopName opts.Match).2).Items = []) ∧
    ((mainFull opts (Search w opts.Keyword opts.ShopName opts.Match).1
        (Search w opts.Keyword opts.ShopName opts.Match).2).ItemsScanned = 0 ∧
     (mainFull opts (Search w opts.Keyword opts.ShopName opts.Match).1
        (Search w opts.Keyword opts.ShopName opts.Match).2).SearchURL = [] ∧
     (mainFull opts (Search w opts.Keyword opts.ShopName opts.Match).1
        (Search w opts.Keyword opts.ShopName opts.Match).2).IframeURL = []) := by
  obtain ⟨iframeURL, hres, hiframe⟩ :=
    search_error_result w opts.Keyword opts.ShopName opts.Match herr
  obtain ⟨err, he⟩ : ∃ err, (Search w opts.Keyword opts.ShopName opts.Match).2 = some err := by
    cases h : (Search w opts.Keyword opts.ShopName opts.Match).2 with
    | none => exact absurd h herr
    | some err => exact ⟨err, rfl⟩
  rw [he, hres]
  refine ⟨⟨rfl, rfl, rfl, rfl, rfl⟩, ⟨rfl, hiframe⟩, ?_, ?_⟩
  · simp only [mainMinimal, Option.isSome_some, if_true]
    exact ⟨trivial, mapError_some err, trivial, trivial, trivial, trivial⟩
  · simp only [mainFull, Option.isSome_some, if_true]
    exact ⟨trivial, trivial, trivial⟩

/-- Witness for C9 (amended): the run whose second fetch is answered with
status 503 fails after the iframe URL was located. -/
theorem search_error_outcome_witness :
    (Search (servesOuter "cafe".toList) "cafe".toList "Cafe".toList MatchPartial).1.Rank = -1 ∧
    (Search (servesOuter "cafe".toList) "cafe".toList "Cafe".toList MatchPartial).1.IframeURL =
      "https://pcmap.place.naver.com/place/list?query=cafe".toList ∧
    (mainFull ⟨"cafe".toList, "Cafe".toList, MatchPartial, true⟩
      (Search (servesOuter "cafe".toList) "cafe".toList "Cafe".toList MatchPartial).1
      (Search (servesOuter "cafe".toList) "cafe".toList "Cafe".toList MatchPartial).2).IframeURL
      = [] :=
  ⟨(search_error_outcome (servesOuter "cafe".toList)
      ⟨"cafe".toList, "Cafe".toList, MatchPartial, true⟩ (by decide)).1.2.1,
   by decide,
   (search_error_outcome (servesOuter "cafe".toList)
      ⟨"cafe".toList, "Cafe".toList, MatchPartial, true⟩ (by decide)).2.2.2.2.2⟩

end NaverPlaceRank
